import Mathlib

/-!
Verification development for the Ovi GPU resource/distribution-management
subsystem.  The definitions below are shallow embeddings of the Python
sources:

  * src/ovi/utils/gpu_manager.py           (GPUManager, VRAM modes, allocations)
  * src/ovi/distributed_comms/distributed/fsdp.py  (get_optimal_sharding_strategy)
  * src/ovi/distributed_comms/optimized_comms.py   (collective primitives)
  * src/ovi/modules/lora_lightning.py      (LoRA layers and manager)

Machine floating point arithmetic is modelled with exact rationals; tensors
are modelled as nested lists of rationals; Python exceptions are modelled
with Except.
-/

/-! ### gpu_manager.py : VRAM modes -/

/-- VRAMConfig dataclass from src/ovi/utils/gpu_manager.py. -/
structure VRAMConfig where
  mode : String
  fp8 : Bool
  cpu_offload : Bool
  qint8 : Bool
  max_batch_size : Nat
  description : String
deriving DecidableEq

/-- The catalog entry for the mode named standard. -/
def standardConfig : VRAMConfig :=
  ⟨"standard", false, false, false, 1,
   "Best quality for high-end GPUs (32GB+ VRAM)"⟩

/-- The catalog entry for the mode named fp8. -/
def fp8Config : VRAMConfig :=
  ⟨"fp8", true, false, false, 1, "FP8 quantization for 24GB VRAM GPUs"⟩

/-- The catalog entry for the mode named fp8_offload. -/
def fp8OffloadConfig : VRAMConfig :=
  ⟨"fp8_offload", true, true, false, 1, "FP8 with CPU offload for 16-24GB VRAM"⟩

/-- The catalog entry for the mode named ultra_low. -/
def ultraLowConfig : VRAMConfig :=
  ⟨"ultra_low", false, true, true, 1, "QINT8 with CPU offload for 8-16GB VRAM"⟩

/-- The fixed VRAM_MODES catalog from src/ovi/utils/gpu_manager.py. -/
def VRAM_MODES : List (String × VRAMConfig) :=
  [("standard", standardConfig), ("fp8", fp8Config),
   ("fp8_offload", fp8OffloadConfig), ("ultra_low", ultraLowConfig)]

/-- GPUManager.get_vram_config: unknown mode names fall back to standard
(the source logs a warning and substitutes the key standard). -/
def get_vram_config (vram_mode : String) : VRAMConfig :=
  match VRAM_MODES.lookup vram_mode with
  | some c => c
  | none => standardConfig

/-- GPUManager.estimate_vram_usage.  Floats are modelled as rationals:
80.0 becomes 80, 1.5 becomes 3/2, 0.3 becomes 3/10, 0.4 becomes 2/5.
The local variable frames is computed and never used, as in the source. -/
def estimate_vram_usage (resolution : Nat × Nat) (duration : String)
    (vram_mode : String) : ℚ :=
  let height := resolution.1
  let width := resolution.2
  let _frames : Nat := if duration == "5s" then 121 else 241
  let base_vram : ℚ := 80
  let area_factor : ℚ := ((height * width : Nat) : ℚ) / ((720 * 720 : Nat) : ℚ)
  let vram := base_vram * area_factor
  let vram := if duration == "10s" then vram * (3 / 2) else vram
  let vram_config := get_vram_config vram_mode
  let vram := if vram_config.fp8 then vram * (3 / 10) else vram
  let vram := if vram_config.qint8 then vram * (3 / 10) else vram
  let vram := if vram_config.cpu_offload then vram * (2 / 5) else vram
  vram

/-! ### gpu_manager.py : GPU allocations -/

/-- GPUAllocation dataclass from src/ovi/utils/gpu_manager.py.
num_gpus is an integer because the source uses -1 to mean auto-detect. -/
structure GPUAllocation where
  mode : String
  num_gpus : Int
  sp_size : Nat
  use_fsdp : Bool
  fsdp_strategy : Option String
  description : String
deriving DecidableEq

/-- The auto catalog entry. -/
def allocAuto : GPUAllocation :=
  ⟨"auto", -1, 1, false, none, "Automatically distribute across available GPUs"⟩

/-- The single catalog entry. -/
def allocSingle : GPUAllocation :=
  ⟨"single", 1, 1, false, none, "Use single GPU"⟩

/-- The multi_2 catalog entry. -/
def allocMulti2 : GPUAllocation :=
  ⟨"multi_2", 2, 2, false, none, "Sequence parallel across 2 GPUs"⟩

/-- The multi_4 catalog entry. -/
def allocMulti4 : GPUAllocation :=
  ⟨"multi_4", 4, 4, false, none, "Sequence parallel across 4 GPUs"⟩

/-- The multi_8 catalog entry. -/
def allocMulti8 : GPUAllocation :=
  ⟨"multi_8", 8, 8, false, none, "Sequence parallel across 8 GPUs"⟩

/-- The fsdp catalog entry. -/
def allocFsdp : GPUAllocation :=
  ⟨"fsdp", -1, 1, true, some "FULL_SHARD", "FSDP sharded inference for memory efficiency"⟩

/-- The fixed GPU_ALLOCATIONS catalog from src/ovi/utils/gpu_manager.py. -/
def GPU_ALLOCATIONS : List (String × GPUAllocation) :=
  [("auto", allocAuto), ("single", allocSingle), ("multi_2", allocMulti2),
   ("multi_4", allocMulti4), ("multi_8", allocMulti8), ("fsdp", allocFsdp)]

/-- GPUManager.allocate_gpus.  The manager field self.num_gpus (the inventoried
device count) is passed explicitly as numGpus.  Unknown names are replaced by
auto (the source logs a warning); auto resolves by device count; a resolved
allocation requesting more devices than available falls back by the same
bucketing over the available count. -/
def allocate_gpus (numGpus : Nat) (allocation_mode : String) : GPUAllocation :=
  let mode := if (GPU_ALLOCATIONS.lookup allocation_mode).isSome
              then allocation_mode else "auto"
  let allocation := (GPU_ALLOCATIONS.lookup mode).getD allocAuto
  let allocation :=
    if mode == "auto" then
      if numGpus = 1 then allocSingle
      else if numGpus = 2 then allocMulti2
      else if 4 ≤ numGpus then allocMulti4
      else allocSingle
    else allocation
  if 0 < allocation.num_gpus ∧ (numGpus : Int) < allocation.num_gpus then
    if 4 ≤ numGpus then allocMulti4
    else if numGpus = 2 then allocMulti2
    else allocSingle
  else allocation

/-! ### gpu_manager.py : best device and recommendations -/

/-- Errors raised by GPUManager. -/
inductive GPUError where
  | noGPUs
deriving DecidableEq

/-- The value max(xs) of a nonempty Python list, as a fold. -/
def pymax (xs : List ℚ) : ℚ := xs.foldl max (xs.headD 0)

/-- GPUManager.get_best_gpu.  The live per-device free-memory queries
(torch.cuda.mem_get_info) are modelled by the input list free_memory, one
entry per inventoried device; the source raises RuntimeError when the device
count is zero, otherwise it returns free_memory.index(max(free_memory)),
the first index attaining the maximum. -/
def get_best_gpu (free_memory : List ℚ) : Except GPUError Nat :=
  if free_memory.length = 0 then Except.error GPUError.noGPUs
  else Except.ok (free_memory.indexOf (pymax free_memory))

/-- GPUManager.can_run_on_gpu.  The inventoried total memories (bytes) are
the list gpu_memory; the source compares the device total converted to GB
with the estimate. -/
def can_run_on_gpu (gpu_memory : List ℚ) (gpu_id : Nat)
    (resolution : Nat × Nat) (duration : String) (vram_mode : String) : Bool :=
  let required_vram := estimate_vram_usage resolution duration vram_mode
  let available_vram := gpu_memory.getD gpu_id 0 / (1024 ^ 3 : ℚ)
  decide (required_vram ≤ available_vram)

/-- The record returned by GPUManager.get_optimal_settings. -/
structure OptimalSettings where
  vram_mode : String
  gpu_allocation : String
  reason : String
deriving DecidableEq

/-- GPUManager.get_optimal_settings: scan all devices for standard, then fp8,
then fp8_offload, each via can_run_on_gpu; fall back to ultra_low
unconditionally. -/
def get_optimal_settings (gpu_memory : List ℚ) (resolution : Nat × Nat)
    (duration : String) : OptimalSettings :=
  match (List.range gpu_memory.length).find?
      (fun gpu_id => can_run_on_gpu gpu_memory gpu_id resolution duration "standard") with
  | some gpu_id =>
      ⟨"standard", "auto",
       "GPU " ++ toString gpu_id ++ " has sufficient VRAM for standard mode"⟩
  | none =>
  match (List.range gpu_memory.length).find?
      (fun gpu_id => can_run_on_gpu gpu_memory gpu_id resolution duration "fp8") with
  | some _ => ⟨"fp8", "auto", "Requires FP8 quantization"⟩
  | none =>
  match (List.range gpu_memory.length).find?
      (fun gpu_id => can_run_on_gpu gpu_memory gpu_id resolution duration "fp8_offload") with
  | some _ => ⟨"fp8_offload", "single", "Requires FP8 + CPU offload"⟩
  | none => ⟨"ultra_low", "single", "Requires ultra low VRAM mode"⟩

/-! ### fsdp.py : sharding strategy choice -/

/-- torch.distributed.fsdp.ShardingStrategy, restricted to the members the
source uses. -/
inductive ShardingStrategy where
  | SHARD_GRAD_OP
  | FULL_SHARD
  | HYBRID_SHARD
deriving DecidableEq

/-- get_optimal_sharding_strategy from
src/ovi/distributed_comms/distributed/fsdp.py.  Floats are rationals:
0.5 becomes 1/2 and 0.8 becomes 4/5. -/
def get_optimal_sharding_strategy (num_gpus : Nat) (model_size_gb : ℚ)
    (available_memory_gb : ℚ) : ShardingStrategy :=
  let memory_per_gpu := model_size_gb / (num_gpus : ℚ)
  if memory_per_gpu < available_memory_gb * (1 / 2) then
    ShardingStrategy.SHARD_GRAD_OP
  else if memory_per_gpu < available_memory_gb * (4 / 5) then
    ShardingStrategy.FULL_SHARD
  else
    ShardingStrategy.HYBRID_SHARD

/-! ### optimized_comms.py : sequence parallel size -/

/-- get_optimal_sp_size from src/ovi/distributed_comms/optimized_comms.py:
scan [1, 2, 4, 8] in reverse and return the first size that both fits the
GPU count and divides the sequence length; return 1 when none does. -/
def get_optimal_sp_size (num_gpus : Nat) (sequence_length : Nat) : Nat :=
  let valid_sizes : List Nat := [1, 2, 4, 8]
  match valid_sizes.reverse.find?
      (fun size => size ≤ num_gpus && sequence_length % size == 0) with
  | some size => size
  | none => 1

/-! ### lora_lightning.py : LoRALinear merge/unmerge (weight-level model)

LoRALinear wraps a base nn.Linear.  The base weight has shape
(out_features, in_features); lora_A has shape (in_features, rank) and
lora_B has shape (rank, out_features); scaling = alpha / rank.
merge_weights adds (lora_A @ lora_B * scaling).T to the base weight when the
merged flag is clear, and unmerge_weights subtracts the same quantity when
it is set.  Float tensors are modelled as rational matrices. -/

/-- The state of one LoRALinear from src/ovi/modules/lora_lightning.py:
the base layer weight, the two LoRA factors, the scaling and the merged
flag. -/
structure LoRALinearState (outF inF rank : Nat) where
  weight : Matrix (Fin outF) (Fin inF) ℚ
  lora_A : Matrix (Fin inF) (Fin rank) ℚ
  lora_B : Matrix (Fin rank) (Fin outF) ℚ
  scaling : ℚ
  merged : Bool

/-- LoRALinear.merge_weights: a no-op when already merged; otherwise add
(lora_A @ lora_B * scaling).T to the base weight and set the flag. -/
def merge_weights {o i r : Nat} (s : LoRALinearState o i r) :
    LoRALinearState o i r :=
  if s.merged then s
  else
    { s with
      weight := s.weight + (s.scaling • (s.lora_A * s.lora_B)).transpose
      merged := true }

/-- LoRALinear.unmerge_weights: a no-op when not merged; otherwise subtract
(lora_A @ lora_B * scaling).T from the base weight and clear the flag. -/
def unmerge_weights {o i r : Nat} (s : LoRALinearState o i r) :
    LoRALinearState o i r :=
  if s.merged then
    { s with
      weight := s.weight - (s.scaling • (s.lora_A * s.lora_B)).transpose
      merged := false }
  else s

/-- One merge-then-unmerge cycle on a LoRALinear. -/
def mergeUnmergeCycle {o i r : Nat} (s : LoRALinearState o i r) :
    LoRALinearState o i r :=
  unmerge_weights (merge_weights s)

/-! ### lora_lightning.py : adapter manager (module-tree model)

The module tree of a PyTorch model is modelled as a mutual inductive:
a node is an nn.Linear leaf (weight collapsed to one rational entry, the
structure of apply/remove does not depend on the weight shape), an
nn.Identity, a LoRALayer (holding the two factors and the scaling; its only
child, the dropout, is an nn.Identity because apply_adapter builds
LoRALinear with the default dropout 0.0), a LoRALinear wrapper (children
base_layer and lora), or a generic container of named children.
model.named_modules() is the depth-first traversal of this tree with
dot-joined qualified names; newly created wrappers are not re-traversed
within the same apply_adapter pass, because the Python generator has already
recursed into the replaced child object. -/

mutual
/-- A PyTorch module tree as traversed by named_modules. -/
inductive PModule where
  | linear (weight : ℚ)
  | identityMod
  | loraLayer (lora_A lora_B scaling : ℚ)
  | loraLinear (base lora : PModule) (merged : Bool)
  | container (children : PForest)

/-- The named children of a container module. -/
inductive PForest where
  | nil
  | cons (name : String) (m : PModule) (rest : PForest)
end

/-- Dot-joined qualified names, as produced by named_modules. -/
def joinName (qual child : String) : String :=
  if qual == "" then child else qual ++ "." ++ child

/-- Whether pat occurs as a contiguous sublist of xs. -/
def listHasSub (xs pat : List Char) : Bool :=
  match xs with
  | [] => pat.isEmpty
  | _ :: rest => pat.isPrefixOf xs || listHasSub rest pat

/-- The Python substring test target in name. -/
def strContains (name target : String) : Bool :=
  listHasSub name.data target.data

/-- should_adapt: any(target in name for target in target_modules). -/
def shouldAdapt (name : String) (target_modules : List String) : Bool :=
  target_modules.any (fun target => strContains name target)

/-- A loaded adapter state dict, keyed by module name; an entry (n, a, b)
stands for the pair of tensors at keys n.lora_A and n.lora_B (apply_adapter
only uses a state entry when both keys are present). -/
def AdapterState : Type := List (String × ℚ × ℚ)

/-- Building LoRALinear(module, rank=rank, alpha=alpha) inside
apply_adapter and optionally merging it: lora_A is freshly
Kaiming-uniform initialized (a random draw, modelled by the oracle freshA
applied to the qualified name) and lora_B is zero-initialized; if the state
dict has entries for this name they overwrite both factors; if merge is
true, merge_weights folds lora_A @ lora_B * scaling into the base weight
and sets the merged flag. -/
def mkLoRALinear (st : AdapterState) (freshA : String → ℚ) (scaling : ℚ)
    (merge : Bool) (name : String) (w : ℚ) : PModule :=
  let factors := match st.lookup name with
    | some ab => ab
    | none => (freshA name, 0)
  let baseWeight := if merge then w + factors.1 * factors.2 * scaling else w
  PModule.loraLinear (PModule.linear baseWeight)
    (PModule.loraLayer factors.1 factors.2 scaling) merge

mutual
/-- The module-replacement pass of LoRAManager.apply_adapter: walk the tree
in named_modules order; an nn.Linear whose qualified name contains one of
the target substrings is replaced by a fresh LoRALinear wrapper (and the
wrapper is not traversed further within this pass); every other module is
traversed into, including the base_layer and lora children of an existing
LoRALinear wrapper.  The root module (qualified name the empty string)
never matches a nonempty target, as in the source. -/
def applyRec (st : AdapterState) (freshA : String → ℚ) (scaling : ℚ)
    (targets : List String) (merge : Bool) (qual : String) :
    PModule → PModule
  | PModule.linear w =>
      if shouldAdapt qual targets then
        mkLoRALinear st freshA scaling merge qual w
      else PModule.linear w
  | PModule.identityMod => PModule.identityMod
  | PModule.loraLayer a b s => PModule.loraLayer a b s
  | PModule.loraLinear base lora merged =>
      PModule.loraLinear
        (applyRec st freshA scaling targets merge (joinName qual "base_layer") base)
        (applyRec st freshA scaling targets merge (joinName qual "lora") lora)
        merged
  | PModule.container cs =>
      PModule.container (applyForest st freshA scaling targets merge qual cs)

/-- applyRec lifted over the named children of a container. -/
def applyForest (st : AdapterState) (freshA : String → ℚ) (scaling : ℚ)
    (targets : List String) (merge : Bool) (qual : String) :
    PForest → PForest
  | PForest.nil => PForest.nil
  | PForest.cons n m rest =>
      PForest.cons n (applyRec st freshA scaling targets merge (joinName qual n) m)
        (applyForest st freshA scaling targets merge qual rest)
end

/-- Errors raised while manipulating adapters: ValueError for an unloaded
adapter name, AttributeError when unmerge_weights reads the weight
attribute of a base_layer that is not an nn.Linear. -/
inductive AdapterError where
  | notLoaded
  | noWeightAttr
deriving DecidableEq

/-- In-memory state of a LoRAManager: the registry of loaded adapters and
the single active-adapter pointer. -/
structure LoRAManagerState where
  adapters : List (String × AdapterState)
  active_adapter : Option String

/-- LoRAManager.apply_adapter: raise ValueError when the name was never
loaded; otherwise rewrite the model tree with applyRec (scaling =
alpha / rank, as in LoRALayer) and set the active-adapter pointer to the
name.  The source defaults: target_modules cover q, k, v, o; rank 4;
alpha 1.0; merge true. -/
def apply_adapter (mgr : LoRAManagerState) (model : PModule)
    (adapter_name : String) (freshA : String → ℚ)
    (target_modules : List String := ["q", "k", "v", "o"])
    (rank : Nat := 4) (alpha : ℚ := 1) (merge : Bool := true) :
    Except AdapterError (LoRAManagerState × PModule) :=
  match mgr.adapters.lookup adapter_name with
  | none => Except.error AdapterError.notLoaded
  | some st =>
      let scaling := alpha / (rank : ℚ)
      Except.ok
        ({ mgr with active_adapter := some adapter_name },
         applyRec st freshA scaling target_modules merge "" model)

mutual
/-- The unwrap pass of LoRAManager.remove_adapter: every LoRALinear found
by the traversal is unmerged first when its merged flag is set (reading
base_layer.weight, which raises AttributeError when the base is not an
nn.Linear, exactly as the source would) and then replaced by its
base_layer; the traversal continues into the replacing subtree, modelling
the source generator walking the replaced wrapper children while
get_submodule re-resolves paths against the mutated model. -/
def removeRec : PModule → Except AdapterError PModule
  | PModule.linear w => Except.ok (PModule.linear w)
  | PModule.identityMod => Except.ok PModule.identityMod
  | PModule.loraLayer a b s => Except.ok (PModule.loraLayer a b s)
  | PModule.loraLinear base lora merged =>
      let factors := match lora with
        | PModule.loraLayer a b s => (a, b, s)
        | _ => (0, 0, 0)
      if merged then
        match base with
        | PModule.linear w =>
            Except.ok (PModule.linear (w - factors.1 * factors.2.1 * factors.2.2))
        | _ => Except.error AdapterError.noWeightAttr
      else
        removeRec base
  | PModule.container cs =>
      match removeForest cs with
      | Except.ok cs2 => Except.ok (PModule.container cs2)
      | Except.error e => Except.error e

/-- removeRec lifted over the named children of a container. -/
def removeForest : PForest → Except AdapterError PForest
  | PForest.nil => Except.ok PForest.nil
  | PForest.cons n m rest =>
      match removeRec m with
      | Except.error e => Except.error e
      | Except.ok m2 =>
          match removeForest rest with
          | Except.error e => Except.error e
          | Except.ok rest2 => Except.ok (PForest.cons n m2 rest2)
end

/-- LoRAManager.remove_adapter: a no-op when no adapter is active;
otherwise unwrap every LoRALinear (unmerging first when merged) and clear
the active-adapter pointer; an AttributeError aborts the removal. -/
def remove_adapter (mgr : LoRAManagerState) (model : PModule) :
    Except AdapterError (LoRAManagerState × PModule) :=
  match mgr.active_adapter with
  | none => Except.ok (mgr, model)
  | some _ =>
      match removeRec model with
      | Except.error e => Except.error e
      | Except.ok model2 => Except.ok ({ mgr with active_adapter := none }, model2)

mutual
/-- Whether any LoRALinear wrapper occurs in the tree. -/
def hasWrapper : PModule → Bool
  | PModule.loraLinear _ _ _ => true
  | PModule.container cs => hasWrapperForest cs
  | _ => false

/-- hasWrapper over the children of a container. -/
def hasWrapperForest : PForest → Bool
  | PForest.nil => false
  | PForest.cons _ m rest => hasWrapper m || hasWrapperForest rest
end

mutual
/-- Whether the tree contains a LoRALinear wrapper nested inside another
LoRALinear wrapper (stacked adapters). -/
def hasNestedWrapper : PModule → Bool
  | PModule.loraLinear base _ _ => hasWrapper base || hasNestedWrapper base
  | PModule.container cs => hasNestedWrapperForest cs
  | _ => false

/-- hasNestedWrapper over the children of a container. -/
def hasNestedWrapperForest : PForest → Bool
  | PForest.nil => false
  | PForest.cons _ m rest => hasNestedWrapper m || hasNestedWrapperForest rest
end

/-! ### optimized_comms.py : tensors and torch primitives

A torch tensor is modelled as a nested rational tensor: a leaf is a scalar
entry and a node is the ordered list of slices along the leading dimension.
Layout-only operations (contiguous) are identities in this model. -/

/-- A nested tensor of rationals. -/
inductive NT where
  | leaf (x : ℚ)
  | node (elems : List NT)

/-- Whether a tensor has exactly the given shape (every dimension sized as
listed, uniformly across slices); recursion on the shape. -/
def conforms (t : NT) (sh : List Nat) : Bool :=
  match sh, t with
  | [], NT.leaf _ => true
  | n :: rest, NT.node es => es.length == n && es.all (fun e => conforms e rest)
  | _, _ => false

/-- The shape of a tensor read off greedily along first slices (total; below
a zero-sized dimension nothing more can be read). -/
def shapeOf : NT → List Nat
  | NT.leaf _ => []
  | NT.node [] => [0]
  | NT.node (e :: es) => (es.length + 1) :: shapeOf e

/-- The section sizes used by torch.tensor_split(tensor, n, dim) on a
dimension of length len: the first len % n sections get one extra element. -/
def splitSizes (len n : Nat) : List Nat :=
  (List.range n).map (fun i => len / n + if i < len % n then 1 else 0)

/-- Cut a list into consecutive chunks of the given sizes. -/
def takeChunks : List α → List Nat → List (List α)
  | _, [] => []
  | xs, s :: ss => xs.take s :: takeChunks (xs.drop s) ss

/-- torch.tensor_split of a list of slices into n sections. -/
def splitList (xs : List α) (n : Nat) : List (List α) :=
  takeChunks xs (splitSizes xs.length n)

/-- torch.tensor_split(t, n, dim): produce the n sections of t along
dimension dim (sections of an out-of-range dimension are empty, the torch
call would raise there; the theorems assume an in-range dimension). -/
def splitAtDim (t : NT) (dim n : Nat) : List NT :=
  match dim, t with
  | 0, NT.node es => (splitList es n).map NT.node
  | d + 1, NT.node es =>
      (List.range n).map (fun i =>
        NT.node (es.map (fun e => (splitAtDim e d n).getD i (NT.node []))))
  | _, NT.leaf _ => []

/-- The slices of a node (a leaf has none). -/
def childrenOf : NT → List NT
  | NT.leaf _ => []
  | NT.node es => es

/-- torch.cat(ts, dim): concatenate along dimension dim.  Along a deeper
dimension the slices are zipped positionally (torch.cat requires the
non-concatenated dimensions to agree; the slice count is read off the first
tensor). -/
def catAtDim (ts : List NT) (dim : Nat) : NT :=
  match dim with
  | 0 => NT.node (ts.flatMap childrenOf)
  | d + 1 =>
      NT.node ((List.range (childrenOf (ts.headD (NT.node []))).length).map
        (fun j => catAtDim (ts.map (fun t => (childrenOf t).getD j (NT.node []))) d))

/-! ### optimized_comms.py : process groups and collectives

The torch.distributed runtime is modelled as an environment: nccl_info.group
from parallel_states (None when sequence parallelism was not set up), the
size of each named group handle, and the size of the default group (None
when torch.distributed was never initialised, in which case
dist.get_world_size(None) raises).  A collective is given the whole
system's inputs (one per rank) so that each rank's result can be expressed;
dist.all_to_all signals an error when a received section does not match the
preallocated output buffer shape, which is how a shape mismatch surfaces
from the backend. -/

/-- Errors surfaced by the modelled torch.distributed runtime. -/
inductive CommError where
  | noDefaultGroup
  | invalidGroup
  | invalidRank
  | shapeMismatch
deriving DecidableEq

/-- The ambient torch.distributed state. -/
structure CommEnv where
  ncclGroup : Option Nat
  groupSize : Nat → Option Nat
  defaultSize : Option Nat

/-- dist.get_world_size(group): look up the group handle, or the default
group when the handle is None; raises when torch.distributed has no such
group. -/
def get_world_size (env : CommEnv) (group : Option Nat) : Except CommError Nat :=
  match group with
  | some g =>
      match env.groupSize g with
      | some w => Except.ok w
      | none => Except.error CommError.invalidGroup
  | none =>
      match env.defaultSize with
      | some w => Except.ok w
      | none => Except.error CommError.noDefaultGroup

/-- The group actually used by every operation in optimized_comms.py:
the argument, or nccl_info.group when the argument is None. -/
def resolveGroup (env : CommEnv) (group : Option Nat) : Option Nat :=
  if group.isNone then env.ncclGroup else group

/-- The body shared by batched_all_to_all (per batched tensor) and
OptimizedAllToAll.forward: split this rank's tensor along scatter_dim into
world_size contiguous sections, preallocate world_size output buffers shaped
like the first section (torch.empty_like(input_list[0])), receive section
rank from every rank through dist.all_to_all — which fails when a received
section does not fit its buffer — and concatenate the received sections
along gather_dim. -/
def all_to_all_tensor (allTensors : Nat → NT) (rank world_size : Nat)
    (scatter_dim gather_dim : Nat) : Except CommError NT :=
  let input_list := splitAtDim (allTensors rank) scatter_dim world_size
  let bufShape := shapeOf (input_list.headD (NT.node []))
  let received := (List.range world_size).map
    (fun i => (splitAtDim (allTensors i) scatter_dim world_size).getD rank (NT.node []))
  if received.all (fun c => shapeOf c == bufShape) then
    Except.ok (catAtDim received gather_dim)
  else Except.error CommError.shapeMismatch

/-- batched_all_to_all from src/ovi/distributed_comms/optimized_comms.py,
seen from rank: resolve the group (nccl_info.group when None), query the
world size (this is where an unresolvable group raises), return the inputs
unchanged when the world size is 1, otherwise run one all-to-all per tensor
in the batch.  allInputs gives every rank's batch; the ranks exchange
same-index tensors. -/
def batched_all_to_all (env : CommEnv) (allInputs : Nat → List NT) (rank : Nat)
    (scatter_dim : Nat := 2) (gather_dim : Nat := 1)
    (group : Option Nat := none) : Except CommError (List NT) := do
  let group := resolveGroup env group
  let world_size ← get_world_size env group
  if world_size = 1 then
    return allInputs rank
  (List.range (allInputs rank).length).mapM (fun k =>
    all_to_all_tensor (fun i => (allInputs i).getD k (NT.node [])) rank world_size
      scatter_dim gather_dim)

/-- The whole-system run of batched_all_to_all: every rank of the group
enters the collective; a failure on any rank fails the job. -/
def batched_all_to_all_global (env : CommEnv) (allInputs : Nat → List NT)
    (world_size : Nat) (scatter_dim : Nat := 2) (gather_dim : Nat := 1)
    (group : Option Nat := none) : Except CommError (List (List NT)) :=
  (List.range world_size).mapM (fun r =>
    batched_all_to_all env allInputs r scatter_dim gather_dim group)

/-- overlapped_all_gather from src/ovi/distributed_comms/optimized_comms.py:
resolve the group, query the world size, return the input unchanged at
world size 1, otherwise gather one copy per rank into buffers shaped like
the local input (mismatched peer shapes fail) and concatenate in rank order
along dim. -/
def overlapped_all_gather (env : CommEnv) (allInputs : Nat → NT) (rank : Nat)
    (dim : Nat := 1) (group : Option Nat := none) : Except CommError NT := do
  let group := resolveGroup env group
  let world_size ← get_world_size env group
  if world_size = 1 then
    return allInputs rank
  if (List.range world_size).all
      (fun i => shapeOf (allInputs i) == shapeOf (allInputs rank)) then
    return catAtDim ((List.range world_size).map allInputs) dim
  else
    throw CommError.shapeMismatch

/-- efficient_broadcast from src/ovi/distributed_comms/optimized_comms.py:
resolve the group and call dist.broadcast unconditionally (there is no
world-size short-circuit in the source); the contiguity coercion is
layout-only.  dist.broadcast needs the group to exist and the source rank
to be a member; every rank then holds the source rank tensor. -/
def efficient_broadcast (env : CommEnv) (allInputs : Nat → NT) (_rank : Nat)
    (src : Nat) (group : Option Nat := none) : Except CommError NT := do
  let group := resolveGroup env group
  let world_size ← get_world_size env group
  if src < world_size then
    return allInputs src
  else
    throw CommError.invalidRank

/-- optimized_all_to_all from src/ovi/distributed_comms/optimized_comms.py:
resolve the group and run OptimizedAllToAll.forward, which queries the
world size, returns the input unchanged at world size 1, and otherwise
performs the same single-tensor all-to-all as batched_all_to_all. -/
def optimized_all_to_all (env : CommEnv) (allInputs : Nat → NT) (rank : Nat)
    (scatter_dim : Nat := 2) (gather_dim : Nat := 1)
    (group : Option Nat := none) : Except CommError NT := do
  let group := resolveGroup env group
  let world_size ← get_world_size env group
  if world_size = 1 then
    return allInputs rank
  all_to_all_tensor allInputs rank world_size scatter_dim gather_dim

/-! ## Theorems -/

/-- Claim C5: get_optimal_sharding_strategy computes per_device =
model_size / num_devices and returns SHARD_GRAD_OP when per_device is below
half the available memory, FULL_SHARD when it is between half and 0.8 of
the available memory, and HYBRID_SHARD otherwise; on the three worked
examples it returns FULL_SHARD, SHARD_GRAD_OP and HYBRID_SHARD. -/
theorem c5_choose_strategy (num_gpus : Nat) (model_size_gb : ℚ)
    (available_memory_gb : ℚ) (hn : 0 < num_gpus) (hm : 0 < model_size_gb)
    (ha : 0 < available_memory_gb) :
    ((model_size_gb / (num_gpus : ℚ) < available_memory_gb * (1 / 2) →
        get_optimal_sharding_strategy num_gpus model_size_gb available_memory_gb =
          ShardingStrategy.SHARD_GRAD_OP) ∧
     (available_memory_gb * (1 / 2) ≤ model_size_gb / (num_gpus : ℚ) ∧
        model_size_gb / (num_gpus : ℚ) < available_memory_gb * (4 / 5) →
        get_optimal_sharding_strategy num_gpus model_size_gb available_memory_gb =
          ShardingStrategy.FULL_SHARD) ∧
     (available_memory_gb * (4 / 5) ≤ model_size_gb / (num_gpus : ℚ) →
        get_optimal_sharding_strategy num_gpus model_size_gb available_memory_gb =
          ShardingStrategy.HYBRID_SHARD)) ∧
    get_optimal_sharding_strategy 4 40 16 = ShardingStrategy.FULL_SHARD ∧
    get_optimal_sharding_strategy 4 20 16 = ShardingStrategy.SHARD_GRAD_OP ∧
    get_optimal_sharding_strategy 2 40 16 = ShardingStrategy.HYBRID_SHARD := by
  refine ⟨⟨?_, ?_, ?_⟩, by norm_num [get_optimal_sharding_strategy],
    by norm_num [get_optimal_sharding_strategy],
    by norm_num [get_optimal_sharding_strategy]⟩
  · intro h
    simp only [get_optimal_sharding_strategy]
    split_ifs <;> first | rfl | (exfalso; linarith)
  · rintro ⟨h3, h4⟩
    simp only [get_optimal_sharding_strategy]
    split_ifs <;> first | rfl | (exfalso; linarith)
  · intro h
    simp only [get_optimal_sharding_strategy]
    split_ifs <;> first | rfl | (exfalso; linarith)

/-- Claim C5 witness at the first worked example. -/
theorem c5_choose_strategy_witness :
    (0 < 4 ∧ (0 : ℚ) < 40 ∧ (0 : ℚ) < 16) ∧
    get_optimal_sharding_strategy 4 40 16 = ShardingStrategy.FULL_SHARD := by
  refine ⟨⟨by decide, by norm_num, by norm_num⟩, ?_⟩
  exact (c5_choose_strategy 4 40 16 (by decide) (by norm_num) (by norm_num)).1.2.1
    ⟨by norm_num, by norm_num⟩

/-- Closed form of get_optimal_sp_size: the reversed scan is the cascade of
the three nontrivial candidates. -/
theorem get_optimal_sp_size_eq (g l : Nat) :
    get_optimal_sp_size g l =
      if 8 ≤ g ∧ l % 8 = 0 then 8
      else if 4 ≤ g ∧ l % 4 = 0 then 4
      else if 2 ≤ g ∧ l % 2 = 0 then 2
      else 1 := by
  have hb : ∀ s : Nat, ((decide (s ≤ g)) && (l % s == 0)) = true ↔ (s ≤ g ∧ l % s = 0) := by
    intro s
    simp
  simp only [get_optimal_sp_size]
  by_cases h8 : 8 ≤ g ∧ l % 8 = 0
  · rw [if_pos h8]
    have t8 := (hb 8).mpr h8
    simp [List.find?, t8]
  · rw [if_neg h8]
    have f8 := Bool.eq_false_iff.mpr (fun hc => h8 ((hb 8).mp hc))
    by_cases h4 : 4 ≤ g ∧ l % 4 = 0
    · rw [if_pos h4]
      have t4 := (hb 4).mpr h4
      simp [List.find?, f8, t4]
    · rw [if_neg h4]
      have f4 := Bool.eq_false_iff.mpr (fun hc => h4 ((hb 4).mp hc))
      by_cases h2 : 2 ≤ g ∧ l % 2 = 0
      · rw [if_pos h2]
        have t2 := (hb 2).mpr h2
        simp [List.find?, f8, f4, t2]
      · rw [if_neg h2]
        have f2 := Bool.eq_false_iff.mpr (fun hc => h2 ((hb 2).mp hc))
        by_cases h1 : 1 ≤ g ∧ l % 1 = 0
        · have t1 := (hb 1).mpr h1
          simp [List.find?, f8, f4, f2, t1]
        · have f1 := Bool.eq_false_iff.mpr (fun hc => h1 ((hb 1).mp hc))
          simp [List.find?, f8, f4, f2, f1]

/-- Claim C10: get_optimal_sp_size returns the largest s among 8, 4, 2, 1
with s ≤ num_gpus and s dividing sequence_length, and 1 when no candidate
qualifies; the result is a power of two, and when it exceeds 1 it divides
the sequence length and fits the GPU count. -/
theorem c10_get_optimal_sp_size (g l : Nat) :
    (get_optimal_sp_size g l = 1 ∨ get_optimal_sp_size g l = 2 ∨
       get_optimal_sp_size g l = 4 ∨ get_optimal_sp_size g l = 8) ∧
    (∀ t, (t = 1 ∨ t = 2 ∨ t = 4 ∨ t = 8) → t ≤ g → l % t = 0 →
       t ≤ get_optimal_sp_size g l) ∧
    ((¬ ∃ t, (t = 1 ∨ t = 2 ∨ t = 4 ∨ t = 8) ∧ t ≤ g ∧ l % t = 0) →
       get_optimal_sp_size g l = 1) ∧
    (∃ k, get_optimal_sp_size g l = 2 ^ k) ∧
    (1 < get_optimal_sp_size g l →
       l % get_optimal_sp_size g l = 0 ∧ get_optimal_sp_size g l ≤ g) := by
  rw [get_optimal_sp_size_eq]
  refine ⟨?_, ?_, ?_, ?_, ?_⟩
  · split_ifs <;> simp
  · intro t ht htg htl
    rcases ht with rfl | rfl | rfl | rfl <;> split_ifs <;> omega
  · intro hno
    split_ifs with a b c <;>
      [exact absurd ⟨8, by simp, a.1, a.2⟩ hno;
       exact absurd ⟨4, by simp, b.1, b.2⟩ hno;
       exact absurd ⟨2, by simp, c.1, c.2⟩ hno; rfl]
  · split_ifs <;> [exact ⟨3, rfl⟩; exact ⟨2, rfl⟩; exact ⟨1, rfl⟩; exact ⟨0, rfl⟩]
  · split_ifs with a b c <;> intro h1 <;> omega

/-- Claim C10 witness: with 4 GPUs and sequence length 12 the candidates
2 and 4 qualify, and the chosen size is the largest of them. -/
theorem c10_get_optimal_sp_size_witness :
    ((4 = 1 ∨ 4 = 2 ∨ 4 = 4 ∨ 4 = 8) ∧ 4 ≤ 4 ∧ 12 % 4 = 0) ∧
    4 ≤ get_optimal_sp_size 4 12 ∧
    (1 < get_optimal_sp_size 4 12 →
       12 % get_optimal_sp_size 4 12 = 0 ∧ get_optimal_sp_size 4 12 ≤ 4) := by
  refine ⟨by decide, ?_, ?_⟩
  · exact (c10_get_optimal_sp_size 4 12).2.1 4 (by decide) (by decide) (by decide)
  · exact (c10_get_optimal_sp_size 4 12).2.2.2.2

/-- get_vram_config always returns one of the four catalog entries. -/
theorem get_vram_config_cases (mode : String) :
    get_vram_config mode = standardConfig ∨ get_vram_config mode = fp8Config ∨
    get_vram_config mode = fp8OffloadConfig ∨ get_vram_config mode = ultraLowConfig := by
  unfold get_vram_config VRAM_MODES
  by_cases h1 : mode = "standard"
  · have e1 : (mode == "standard") = true := beq_iff_eq.mpr h1
    simp [List.lookup, e1]
  · have e1 : (mode == "standard") = false := beq_eq_false_iff_ne.mpr h1
    by_cases h2 : mode = "fp8"
    · have e2 : (mode == "fp8") = true := beq_iff_eq.mpr h2
      simp [List.lookup, e1, e2]
    · have e2 : (mode == "fp8") = false := beq_eq_false_iff_ne.mpr h2
      by_cases h3 : mode = "fp8_offload"
      · have e3 : (mode == "fp8_offload") = true := beq_iff_eq.mpr h3
        simp [List.lookup, e1, e2, e3]
      · have e3 : (mode == "fp8_offload") = false := beq_eq_false_iff_ne.mpr h3
        by_cases h4 : mode = "ultra_low"
        · have e4 : (mode == "ultra_low") = true := beq_iff_eq.mpr h4
          simp [List.lookup, e1, e2, e3, e4]
        · have e4 : (mode == "ultra_low") = false := beq_eq_false_iff_ne.mpr h4
          simp [List.lookup, e1, e2, e3, e4]

/-- Claim C4: estimate_vram_usage is 80 GB scaled by the resolution area
against 720 by 720, times 3/2 for a 10s duration, times 3/10 when the
resolved mode has fp8 or qint8 set (never both, so the 3/10 factor is
applied at most once), times 2/5 when it has cpu_offload; at (720, 720)
the 5s standard estimate is exactly 80 and the 10s fp8 estimate is
exactly 36. -/
theorem c4_estimate_vram (h w : Nat) (dur mode : String)
    (hdur : dur = "5s" ∨ dur = "10s") :
    (estimate_vram_usage (h, w) dur mode =
       80 * (((h * w : Nat) : ℚ) / ((720 * 720 : Nat) : ℚ))
         * (if dur = "10s" then 3 / 2 else 1)
         * (if (get_vram_config mode).fp8 = true ∨ (get_vram_config mode).qint8 = true
            then 3 / 10 else 1)
         * (if (get_vram_config mode).cpu_offload = true then 2 / 5 else 1)) ∧
    ¬((get_vram_config mode).fp8 = true ∧ (get_vram_config mode).qint8 = true) ∧
    estimate_vram_usage (720, 720) "5s" "standard" = 80 ∧
    estimate_vram_usage (720, 720) "10s" "fp8" = 36 := by
  refine ⟨?_, ?_, ?_, ?_⟩
  · rcases get_vram_config_cases mode with hc | hc | hc | hc <;>
      · simp only [estimate_vram_usage, hc, standardConfig, fp8Config,
          fp8OffloadConfig, ultraLowConfig]
        rcases hdur with rfl | rfl <;> norm_num <;> ring
  · rcases get_vram_config_cases mode with hc | hc | hc | hc <;>
      simp [hc, standardConfig, fp8Config, fp8OffloadConfig, ultraLowConfig]
  · have hs : get_vram_config "standard" = standardConfig := rfl
    norm_num [estimate_vram_usage, hs, standardConfig]
    decide
  · have hs : get_vram_config "fp8" = fp8Config := rfl
    norm_num [estimate_vram_usage, hs, fp8Config]

/-- Claim C4 witness at resolution (720, 720), duration 10s, mode fp8. -/
theorem c4_estimate_vram_witness :
    (("10s" : String) = "5s" ∨ ("10s" : String) = "10s") ∧
    estimate_vram_usage (720, 720) "10s" "fp8" = 36 := by
  refine ⟨Or.inr rfl, ?_⟩
  exact (c4_estimate_vram 720 720 "10s" "fp8" (Or.inr rfl)).2.2.2

/-- Unfolding allocate_gpus at the literal mode auto. -/
theorem allocate_gpus_auto (n : Nat) :
    allocate_gpus n "auto" =
      (let allocation :=
        if n = 1 then allocSingle else if n = 2 then allocMulti2
        else if 4 ≤ n then allocMulti4 else allocSingle
       if 0 < allocation.num_gpus ∧ (n : Int) < allocation.num_gpus then
         if 4 ≤ n then allocMulti4 else if n = 2 then allocMulti2 else allocSingle
       else allocation) := rfl

/-- auto resolves by device count and, with at least one device, is already
feasible so the validation step never rewrites it. -/
theorem allocate_gpus_auto_char (n : Nat) (hn : 1 ≤ n) :
    allocate_gpus n "auto" =
      if n = 1 then allocSingle else if n = 2 then allocMulti2
      else if 4 ≤ n then allocMulti4 else allocSingle := by
  rw [allocate_gpus_auto]
  by_cases h1 : n = 1
  · subst h1; decide
  by_cases h2 : n = 2
  · subst h2; decide
  by_cases h4 : 4 ≤ n
  · have hc : ¬(0 < allocMulti4.num_gpus ∧ (n : Int) < allocMulti4.num_gpus) := by
      simp only [allocMulti4]
      omega
    simp only [if_neg h1, if_neg h2, if_pos h4, if_neg hc]
  · have h3 : n = 3 := by omega
    subst h3; decide

/-- An unknown allocation name behaves exactly like auto. -/
theorem allocate_gpus_unknown (n : Nat) (mode : String)
    (hl : GPU_ALLOCATIONS.lookup mode = none) :
    allocate_gpus n mode = allocate_gpus n "auto" := by
  simp only [allocate_gpus, hl]
  rfl

/-- The single allocation is returned unchanged for any inventoried count. -/
theorem allocate_gpus_single (n : Nat) (hn : 1 ≤ n) :
    allocate_gpus n "single" = allocSingle := by
  have h : allocate_gpus n "single" =
      (if 0 < allocSingle.num_gpus ∧ (n : Int) < allocSingle.num_gpus then
         if 4 ≤ n then allocMulti4 else if n = 2 then allocMulti2 else allocSingle
       else allocSingle) := rfl
  rw [h, if_neg]
  simp only [allocSingle]
  omega

/-- multi_2 degrades to single on a one-device host. -/
theorem allocate_gpus_multi2 (n : Nat) (hn : 1 ≤ n) :
    allocate_gpus n "multi_2" = if 2 ≤ n then allocMulti2 else allocSingle := by
  have h : allocate_gpus n "multi_2" =
      (if 0 < allocMulti2.num_gpus ∧ (n : Int) < allocMulti2.num_gpus then
         if 4 ≤ n then allocMulti4 else if n = 2 then allocMulti2 else allocSingle
       else allocMulti2) := rfl
  rw [h]
  by_cases h2 : 2 ≤ n
  · rw [if_neg (by simp only [allocMulti2]; omega), if_pos h2]
  · have h1 : n = 1 := by omega
    subst h1; decide

/-- multi_4 degrades by the available-count buckets. -/
theorem allocate_gpus_multi4 (n : Nat) (hn : 1 ≤ n) :
    allocate_gpus n "multi_4" =
      if 4 ≤ n then allocMulti4 else if n = 2 then allocMulti2
      else allocSingle := by
  have h : allocate_gpus n "multi_4" =
      (if 0 < allocMulti4.num_gpus ∧ (n : Int) < allocMulti4.num_gpus then
         if 4 ≤ n then allocMulti4 else if n = 2 then allocMulti2 else allocSingle
       else allocMulti4) := rfl
  rw [h]
  by_cases h4 : 4 ≤ n
  · rw [if_neg (by simp only [allocMulti4]; omega), if_pos h4]
  · rw [if_pos ⟨by decide, by simp only [allocMulti4]; omega⟩, if_neg h4]

/-- multi_8 degrades by the available-count buckets. -/
theorem allocate_gpus_multi8 (n : Nat) (hn : 1 ≤ n) :
    allocate_gpus n "multi_8" =
      if 8 ≤ n then allocMulti8
      else if 4 ≤ n then allocMulti4
      else if n = 2 then allocMulti2
      else allocSingle := by
  have h : allocate_gpus n "multi_8" =
      (if 0 < allocMulti8.num_gpus ∧ (n : Int) < allocMulti8.num_gpus then
         if 4 ≤ n then allocMulti4 else if n = 2 then allocMulti2 else allocSingle
       else allocMulti8) := rfl
  rw [h]
  by_cases h8 : 8 ≤ n
  · rw [if_neg (by simp only [allocMulti8]; omega), if_pos h8]
  · rw [if_pos ⟨by decide, by simp only [allocMulti8]; omega⟩, if_neg h8]

/-- Claim C6 counterexample: with zero available devices allocate_gpus still
returns the single allocation, which requests one device — more than are
available, so the returned allocation is not feasible and the claim as
stated is false. -/
theorem c6_counterexample :
    allocate_gpus 0 "auto" = allocSingle ∧
    ¬((allocate_gpus 0 "auto").num_gpus ≤ ((0 : Nat) : Int)) := by decide

/-- Claim C6 (amended): whenever at least one device is available,
allocate_gpus never errors; unknown names behave like auto, auto resolves
by the 1 / 2 / 4-or-more buckets, every catalog allocation that requests
more devices than are available degrades by the same 1 / 2 / 4-or-more
bucketing over the available count (pinned mode by mode: single and fsdp
are returned unchanged, multi_2, multi_4 and multi_8 fall back through the
buckets), in particular multi_8 on a two-device host degrades to multi_2,
and the returned allocation is feasible (its requested device count never
exceeds the available count).  With zero devices the function still returns
the single allocation (see the counterexample). -/
theorem c6_allocate_gpus (mode : String) (n : Nat) (hn : 1 ≤ n) :
    (GPU_ALLOCATIONS.lookup mode = none →
       allocate_gpus n mode = allocate_gpus n "auto") ∧
    allocate_gpus n "auto" =
      (if n = 1 then allocSingle else if n = 2 then allocMulti2
       else if 4 ≤ n then allocMulti4 else allocSingle) ∧
    (allocate_gpus n mode).num_gpus ≤ (n : Int) ∧
    allocate_gpus n "single" = allocSingle ∧
    allocate_gpus n "multi_2" =
      (if 2 ≤ n then allocMulti2 else allocSingle) ∧
    allocate_gpus n "multi_4" =
      (if 4 ≤ n then allocMulti4 else if n = 2 then allocMulti2
       else allocSingle) ∧
    allocate_gpus n "multi_8" =
      (if 8 ≤ n then allocMulti8 else if 4 ≤ n then allocMulti4
       else if n = 2 then allocMulti2 else allocSingle) ∧
    allocate_gpus n "fsdp" = allocFsdp ∧
    allocate_gpus 2 "multi_8" = allocMulti2 := by
  have feas_auto : (allocate_gpus n "auto").num_gpus ≤ (n : Int) := by
    rw [allocate_gpus_auto_char n hn]
    split_ifs with a b c <;>
      simp only [allocSingle, allocMulti2, allocMulti4] <;> omega
  refine ⟨fun hl => allocate_gpus_unknown n mode hl,
    allocate_gpus_auto_char n hn, ?_,
    allocate_gpus_single n hn,
    allocate_gpus_multi2 n hn,
    allocate_gpus_multi4 n hn,
    allocate_gpus_multi8 n hn,
    rfl, by decide⟩
  by_cases m1 : mode = "auto"
  · subst m1; exact feas_auto
  by_cases m2 : mode = "single"
  · subst m2
    rw [allocate_gpus_single n hn]
    simp only [allocSingle]
    omega
  by_cases m3 : mode = "multi_2"
  · subst m3
    rw [allocate_gpus_multi2 n hn]
    split_ifs with a <;> simp only [allocSingle, allocMulti2] <;> omega
  by_cases m4 : mode = "multi_4"
  · subst m4
    rw [allocate_gpus_multi4 n hn]
    split_ifs with a b <;>
      simp only [allocSingle, allocMulti2, allocMulti4] <;> omega
  by_cases m5 : mode = "multi_8"
  · subst m5
    rw [allocate_gpus_multi8 n hn]
    split_ifs with a b c <;>
      simp only [allocSingle, allocMulti2, allocMulti4, allocMulti8] <;> omega
  by_cases m6 : mode = "fsdp"
  · subst m6
    have h : allocate_gpus n "fsdp" = allocFsdp := rfl
    rw [h]
    simp only [allocFsdp]
    omega
  · have hl : GPU_ALLOCATIONS.lookup mode = none := by
      have e1 : (mode == "auto") = false := beq_eq_false_iff_ne.mpr m1
      have e2 : (mode == "single") = false := beq_eq_false_iff_ne.mpr m2
      have e3 : (mode == "multi_2") = false := beq_eq_false_iff_ne.mpr m3
      have e4 : (mode == "multi_4") = false := beq_eq_false_iff_ne.mpr m4
      have e5 : (mode == "multi_8") = false := beq_eq_false_iff_ne.mpr m5
      have e6 : (mode == "fsdp") = false := beq_eq_false_iff_ne.mpr m6
      simp [GPU_ALLOCATIONS, List.lookup, e1, e2, e3, e4, e5, e6]
    rw [allocate_gpus_unknown n mode hl]
    exact feas_auto

/-- Claim C6 witness: the amended theorem applied on a two-device host with
the multi_8 request. -/
theorem c6_allocate_gpus_witness :
    1 ≤ 2 ∧ allocate_gpus 2 "multi_8" = allocMulti2 ∧
    (allocate_gpus 2 "multi_8").num_gpus ≤ ((2 : Nat) : Int) := by
  refine ⟨by decide, (c6_allocate_gpus "multi_8" 2 (by decide)).2.2.2.2.2.2.2.2, ?_⟩
  exact (c6_allocate_gpus "multi_8" 2 (by decide)).2.2.1

/-- The fold seed never exceeds the running maximum. -/
theorem le_foldl_max (xs : List ℚ) (a : ℚ) : a ≤ xs.foldl max a := by
  induction xs generalizing a with
  | nil => exact le_refl a
  | cons y ys ih => exact le_trans (le_max_left a y) (ih (max a y))

/-- Every member is bounded by the running maximum. -/
theorem mem_le_foldl_max (xs : List ℚ) : ∀ (a x : ℚ), x ∈ xs → x ≤ xs.foldl max a := by
  induction xs with
  | nil =>
    intro a x hx
    cases hx
  | cons y ys ih =>
    intro a x hx
    rcases List.mem_cons.mp hx with rfl | h
    · exact le_trans (le_max_right a x) (le_foldl_max ys (max a x))
    · exact ih (max a y) x h

/-- The running maximum is the seed or a member. -/
theorem foldl_max_mem (xs : List ℚ) : ∀ a : ℚ, xs.foldl max a = a ∨ xs.foldl max a ∈ xs := by
  induction xs with
  | nil =>
    intro a
    exact Or.inl rfl
  | cons y ys ih =>
    intro a
    rcases ih (max a y) with h | h
    · rcases max_choice a y with hm | hm
      · left
        rw [List.foldl_cons, h, hm]
      · right
        rw [List.foldl_cons, h, hm]
        exact List.mem_cons_self y ys
    · right
      exact List.mem_cons_of_mem y h

/-- Python max of a nonempty list is one of its members. -/
theorem pymax_mem (xs : List ℚ) (h : xs ≠ []) : pymax xs ∈ xs := by
  rcases foldl_max_mem xs (xs.headD 0) with he | he
  · rw [pymax, he]
    cases xs with
    | nil => exact absurd rfl h
    | cons y ys => exact List.mem_cons_self y ys
  · exact he

/-- Python max of a list bounds every member. -/
theorem le_pymax (xs : List ℚ) (x : ℚ) (hx : x ∈ xs) : x ≤ pymax xs :=
  mem_le_foldl_max xs (xs.headD 0) x hx

/-- Claim C9: get_best_gpu raises exactly when the inventory is empty, and
otherwise returns an index of a device with the most currently-free
memory. -/
theorem c9_get_best_gpu (free_memory : List ℚ) :
    (get_best_gpu free_memory = Except.error GPUError.noGPUs ↔ free_memory = []) ∧
    (free_memory ≠ [] → ∃ i, get_best_gpu free_memory = Except.ok i ∧
       i < free_memory.length ∧
       ∀ j, j < free_memory.length →
         free_memory.getD j 0 ≤ free_memory.getD i 0) := by
  constructor
  · constructor
    · intro h
      by_contra hne
      unfold get_best_gpu at h
      rw [if_neg (by simpa [List.length_eq_zero] using hne)] at h
      exact Except.noConfusion h
    · intro h
      subst h
      rfl
  · intro hne
    have hmem : pymax free_memory ∈ free_memory := pymax_mem free_memory hne
    have hlt : free_memory.indexOf (pymax free_memory) < free_memory.length :=
      List.indexOf_lt_length.mpr hmem
    refine ⟨free_memory.indexOf (pymax free_memory), ?_, hlt, ?_⟩
    · unfold get_best_gpu
      rw [if_neg (by simpa [List.length_eq_zero] using hne)]
    · intro j hj
      have h1 : free_memory.getD (free_memory.indexOf (pymax free_memory)) 0 =
          pymax free_memory := by
        rw [List.getD_eq_get _ _ hlt]
        exact List.indexOf_get hlt
      have h2 : free_memory.getD j 0 ≤ pymax free_memory := by
        rw [List.getD_eq_get _ _ hj]
        exact le_pymax _ _ (List.get_mem free_memory j hj)
      rw [h1]
      exact h2

/-- Claim C9 witness on the inventory [1, 3, 2]. -/
theorem c9_get_best_gpu_witness :
    ([1, 3, 2] : List ℚ) ≠ [] ∧
    (∃ i, get_best_gpu [1, 3, 2] = Except.ok i ∧ i < 3 ∧
       ∀ j, j < ([1, 3, 2] : List ℚ).length →
         ([1, 3, 2] : List ℚ).getD j 0 ≤ ([1, 3, 2] : List ℚ).getD i 0) := by
  have h : ([1, 3, 2] : List ℚ) ≠ [] := by simp
  exact ⟨h, (c9_get_best_gpu [1, 3, 2]).2 h⟩

/-- The fp8_offload and ultra_low catalog entries multiply the same factors
(3/10 then 2/5), so the two VRAM estimates coincide on every input. -/
theorem estimate_fp8_offload_eq_ultra_low (resolution : Nat × Nat) (dur : String) :
    estimate_vram_usage resolution dur "fp8_offload" =
      estimate_vram_usage resolution dur "ultra_low" := rfl

/-- The fixed priority order of VRAM modes tried by get_optimal_settings. -/
def modePriority : List String := ["standard", "fp8", "fp8_offload", "ultra_low"]

/-- Modelled from the spec: the first mode in the fixed priority order that
some inventoried device satisfies under the fits test, with ultra_low as
the never-failing fallback. -/
def claimedOptimalMode (gpu_memory : List ℚ) (resolution : Nat × Nat)
    (dur : String) : String :=
  (modePriority.find? (fun m =>
     (List.range gpu_memory.length).any
       (fun g => can_run_on_gpu gpu_memory g resolution dur m))).getD "ultra_low"

/-- A none result of find? forces any to be false. -/
theorem any_eq_false_of_find?_eq_none {p : Nat → Bool} {l : List Nat}
    (h : l.find? p = none) : l.any p = false := by
  rw [Bool.eq_false_iff]
  intro hc
  rcases List.any_eq_true.mp hc with ⟨x, hx, hpx⟩
  exact (List.find?_eq_none.mp h x hx) hpx

/-- A some result of find? forces any to be true. -/
theorem any_eq_true_of_find?_eq_some {p : Nat → Bool} {l : List Nat} {a : Nat}
    (h : l.find? p = some a) : l.any p = true :=
  List.any_eq_true.mpr ⟨a, List.mem_of_find?_eq_some h, List.find?_some h⟩

/-- Claim C8: get_optimal_settings tries standard, fp8, fp8_offload,
ultra_low in that order, scanning every device with the fits test, returns
the first mode some device satisfies (because the fp8_offload and ultra_low
estimates coincide, the unconditional ultra_low fallback agrees with the
scan), always pairs it with an allocation name, and returns ultra_low when
nothing fits. -/
theorem c8_get_optimal_settings (gpu_memory : List ℚ) (resolution : Nat × Nat)
    (dur : String) :
    (get_optimal_settings gpu_memory resolution dur).vram_mode =
      claimedOptimalMode gpu_memory resolution dur ∧
    ((get_optimal_settings gpu_memory resolution dur).gpu_allocation = "auto" ∨
     (get_optimal_settings gpu_memory resolution dur).gpu_allocation = "single") ∧
    ((∀ g, g < gpu_memory.length → ∀ m, m ∈ modePriority →
        can_run_on_gpu gpu_memory g resolution dur m = false) →
      (get_optimal_settings gpu_memory resolution dur).vram_mode = "ultra_low") := by
  have hequl : ∀ g, can_run_on_gpu gpu_memory g resolution dur "fp8_offload" =
      can_run_on_gpu gpu_memory g resolution dur "ultra_low" := fun _ => rfl
  refine ⟨?_, ?_, ?_⟩
  · cases hstd : (List.range gpu_memory.length).find?
        (fun g => can_run_on_gpu gpu_memory g resolution dur "standard") with
    | some g =>
        have ha := any_eq_true_of_find?_eq_some hstd
        simp [get_optimal_settings, hstd, claimedOptimalMode, modePriority,
          List.find?, ha]
    | none =>
        have ha := any_eq_false_of_find?_eq_none hstd
        cases hfp8 : (List.range gpu_memory.length).find?
            (fun g => can_run_on_gpu gpu_memory g resolution dur "fp8") with
        | some g =>
            have hb := any_eq_true_of_find?_eq_some hfp8
            simp [get_optimal_settings, hstd, hfp8, claimedOptimalMode,
              modePriority, List.find?, ha, hb]
        | none =>
            have hb := any_eq_false_of_find?_eq_none hfp8
            cases hoff : (List.range gpu_memory.length).find?
                (fun g => can_run_on_gpu gpu_memory g resolution dur "fp8_offload") with
            | some g =>
                have hc := any_eq_true_of_find?_eq_some hoff
                simp [get_optimal_settings, hstd, hfp8, hoff, claimedOptimalMode,
                  modePriority, List.find?, ha, hb, hc]
            | none =>
                have hc := any_eq_false_of_find?_eq_none hoff
                have hd : (List.range gpu_memory.length).any
                    (fun g => can_run_on_gpu gpu_memory g resolution dur "ultra_low") =
                    false := by
                  rw [Bool.eq_false_iff]
                  intro hcontra
                  rcases List.any_eq_true.mp hcontra with ⟨x, hx, hpx⟩
                  have : (fun g => can_run_on_gpu gpu_memory g resolution dur
                      "fp8_offload") x = true := by
                    simpa [hequl x] using hpx
                  exact (List.find?_eq_none.mp hoff x hx) this
                simp [get_optimal_settings, hstd, hfp8, hoff, claimedOptimalMode,
                  modePriority, List.find?, ha, hb, hc, hd]
  · unfold get_optimal_settings
    rcases (List.range gpu_memory.length).find?
        (fun g => can_run_on_gpu gpu_memory g resolution dur "standard") with _ | g₁
    · rcases (List.range gpu_memory.length).find?
          (fun g => can_run_on_gpu gpu_memory g resolution dur "fp8") with _ | g₂
      · rcases (List.range gpu_memory.length).find?
            (fun g => can_run_on_gpu gpu_memory g resolution dur "fp8_offload") with _ | g₃
        · exact Or.inr rfl
        · exact Or.inr rfl
      · exact Or.inl rfl
    · exact Or.inl rfl
  · intro hall
    have hstd : (List.range gpu_memory.length).find?
        (fun g => can_run_on_gpu gpu_memory g resolution dur "standard") = none := by
      rw [List.find?_eq_none]
      intro x hx
      rw [hall x (List.mem_range.mp hx) "standard" (by simp [modePriority])]
      simp
    have hfp8 : (List.range gpu_memory.length).find?
        (fun g => can_run_on_gpu gpu_memory g resolution dur "fp8") = none := by
      rw [List.find?_eq_none]
      intro x hx
      rw [hall x (List.mem_range.mp hx) "fp8" (by simp [modePriority])]
      simp
    have hoff : (List.range gpu_memory.length).find?
        (fun g => can_run_on_gpu gpu_memory g resolution dur "fp8_offload") = none := by
      rw [List.find?_eq_none]
      intro x hx
      rw [hall x (List.mem_range.mp hx) "fp8_offload" (by simp [modePriority])]
      simp
    simp [get_optimal_settings, hstd, hfp8, hoff]

/-- Claim C8 witness: an empty inventory satisfies nothing, and the
recommendation is still ultra_low. -/
theorem c8_get_optimal_settings_witness :
    (∀ g, g < ([] : List ℚ).length → ∀ m, m ∈ modePriority →
        can_run_on_gpu [] g (720, 720) "5s" m = false) ∧
    (get_optimal_settings [] (720, 720) "5s").vram_mode = "ultra_low" := by
  have hall : ∀ g, g < ([] : List ℚ).length → ∀ m, m ∈ modePriority →
      can_run_on_gpu [] g (720, 720) "5s" m = false := by
    intro g hg
    simp at hg
  exact ⟨hall, (c8_get_optimal_settings [] (720, 720) "5s").2.2 hall⟩

/-- Claim C7: merge_weights and unmerge_weights are idempotent, merge adds
(lora_A @ lora_B * scaling) transposed onto the base weight in the base
layout orientation, unmerge subtracts the identical quantity, and on an
unmerged layer 100 merge-then-unmerge cycles return the base weight exactly
(exact rational arithmetic, hence within any floating point tolerance). -/
theorem c7_merge_unmerge {o i r : Nat} (s : LoRALinearState o i r) :
    merge_weights (merge_weights s) = merge_weights s ∧
    unmerge_weights (unmerge_weights s) = unmerge_weights s ∧
    (s.merged = false →
       (merge_weights s).weight =
         s.weight + (s.scaling • (s.lora_A * s.lora_B)).transpose ∧
       unmerge_weights (merge_weights s) = s ∧
       mergeUnmergeCycle^[100] s = s) := by
  refine ⟨?_, ?_, fun hm => ?_⟩
  · by_cases h : s.merged <;> simp [merge_weights, h]
  · by_cases h : s.merged <;> simp [unmerge_weights, h]
  · have hcyc : unmerge_weights (merge_weights s) = s := by
      cases s with
      | mk w a b sc m =>
        change m = false at hm
        subst hm
        simp [merge_weights, unmerge_weights, add_sub_cancel_right]
    have hfix : mergeUnmergeCycle s = s := hcyc
    exact ⟨by simp [merge_weights, hm], hcyc, Function.iterate_fixed hfix 100⟩

/-- A concrete 1 by 1 unmerged LoRALinear state. -/
def c7Sample : LoRALinearState 1 1 1 :=
  ⟨Matrix.of fun _ _ => 3, Matrix.of fun _ _ => 5, Matrix.of fun _ _ => 7,
   1 / 4, false⟩

/-- Claim C7 witness: the cycle invariance applied to the concrete sample. -/
theorem c7_merge_unmerge_witness :
    c7Sample.merged = false ∧ mergeUnmergeCycle^[100] c7Sample = c7Sample :=
  ⟨rfl, ((c7_merge_unmerge c7Sample).2.2 rfl).2.2⟩

/-- The C1 scenario model: one linear submodule named q (a target of the
default target_modules). -/
def c1Model : PModule :=
  PModule.container (PForest.cons "q" (PModule.linear 1) PForest.nil)

/-- A manager with two loaded adapters holding empty state dicts. -/
def c1Manager : LoRAManagerState :=
  ⟨[("styleA", ([] : AdapterState)), ("styleB", ([] : AdapterState))], none⟩

/-- The Kaiming-uniform draw oracle used in the scenario. -/
def c1FreshA : String → ℚ := fun _ => 1

/-- apply_adapter with styleA and then styleB, all source defaults. -/
def c1AfterTwoApplies : Except AdapterError (LoRAManagerState × PModule) :=
  match apply_adapter c1Manager c1Model "styleA" c1FreshA with
  | Except.error e => Except.error e
  | Except.ok p => apply_adapter p.1 p.2 "styleB" c1FreshA

/-- The module tree the second application actually produces: the first
wrapper's base_layer (qualified name q.base_layer, which still contains the
target substring q) has been wrapped again.  The weight expressions are the
merge computations left unevaluated (the zero-initialized lora_B makes both
merges add zero). -/
def c1Stacked : PModule :=
  PModule.container (PForest.cons "q"
    (PModule.loraLinear
      (PModule.loraLinear
        (PModule.linear (1 + 1 * 0 * (1 / 4) + 1 * 0 * (1 / 4)))
        (PModule.loraLayer 1 0 (1 / 4)) true)
      (PModule.loraLayer 1 0 (1 / 4)) true)
    PForest.nil)

/-- The manager state after the two applications. -/
def c1ManagerAfter : LoRAManagerState :=
  ⟨[("styleA", ([] : AdapterState)), ("styleB", ([] : AdapterState))],
   some "styleB"⟩

/-- Claim C1 (code bug evidence): applying a second adapter does not replace
the first — it wraps the existing wrapper's base_layer, leaving nested
LoRALinear wrappers — and the subsequent remove_adapter raises
AttributeError while unmerging the outer wrapper, whose base_layer is not a
linear layer, instead of restoring the original model. -/
theorem c1_adapter_stacking :
    c1AfterTwoApplies = Except.ok (c1ManagerAfter, c1Stacked) ∧
    hasNestedWrapper c1Stacked = true ∧
    c1ManagerAfter.active_adapter = some "styleB" ∧
    remove_adapter c1ManagerAfter c1Stacked =
      Except.error AdapterError.noWeightAttr :=
  ⟨rfl, rfl, rfl, rfl⟩

/-- Sanity check of the embedding: a single apply_adapter followed by
remove_adapter does restore the original model and clears the pointer. -/
theorem apply_remove_single_restores :
    (match apply_adapter c1Manager c1Model "styleA" c1FreshA with
     | Except.ok p => remove_adapter p.1 p.2
     | Except.error e => Except.error e) =
      Except.ok (c1Manager, c1Model) := by
  show Except.ok (c1Manager,
      PModule.container (PForest.cons "q"
        (PModule.linear (1 + 1 * 0 * (1 / 4) - 1 * 0 * (1 / 4))) PForest.nil)) =
    Except.ok (c1Manager, c1Model)
  simp only [c1Model, Except.ok.injEq, Prod.mk.injEq, PModule.container.injEq,
    PForest.cons.injEq, PModule.linear.injEq]
  norm_num

/-! ### Shape lemmas for the tensor model -/

/-- Sums over an initial segment with a capped indicator. -/
theorem sum_range_map_add_ite (n q r : Nat) :
    (((List.range n).map (fun i => q + if i < r then 1 else 0)).sum) =
      n * q + min r n := by
  induction n with
  | zero => simp
  | succ m ih =>
    rw [List.range_succ, List.map_append, List.sum_append]
    simp only [List.map_cons, List.map_nil, List.sum_cons, List.sum_nil, ih,
      Nat.succ_mul]
    by_cases hm : m < r
    · rw [if_pos hm, min_eq_right (by omega : m ≤ r),
        min_eq_right (by omega : m + 1 ≤ r)]
      omega
    · rw [if_neg hm, min_eq_left (by omega : r ≤ m),
        min_eq_left (by omega : r ≤ m + 1)]
      omega

/-- splitSizes has one entry per section. -/
theorem splitSizes_length (len n : Nat) : (splitSizes len n).length = n := by
  simp [splitSizes]

/-- The entries of splitSizes. -/
theorem splitSizes_getD (len n i : Nat) (hi : i < n) :
    (splitSizes len n).getD i 0 =
      len / n + if i < len % n then 1 else 0 := by
  rw [splitSizes, List.getD_eq_getElem _ _ (by simpa [splitSizes] using hi)]
  simp

/-- The section sizes sum back to the original length. -/
theorem splitSizes_sum (len n : Nat) (hn : 0 < n) :
    (splitSizes len n).sum = len := by
  rw [splitSizes, sum_range_map_add_ite,
    min_eq_left (le_of_lt (Nat.mod_lt len hn))]
  have := Nat.div_add_mod len n
  omega

/-- takeChunks produces one chunk per requested size. -/
theorem takeChunks_length {α : Type} (xs : List α) (ss : List Nat) :
    (takeChunks xs ss).length = ss.length := by
  induction ss generalizing xs with
  | nil => rfl
  | cons s ss ih => simp [takeChunks, ih]

/-- When the requested sizes fit, each chunk has exactly its requested
length. -/
theorem takeChunks_getD_length {α : Type} :
    ∀ (ss : List Nat) (xs : List α), ss.sum ≤ xs.length →
      ∀ i, i < ss.length → ((takeChunks xs ss).getD i []).length = ss.getD i 0 := by
  intro ss
  induction ss with
  | nil =>
    intro xs _ i hi
    cases hi
  | cons s ss ih =>
    intro xs hsum i hi
    cases i with
    | zero =>
      simp only [takeChunks, List.getD_cons_zero, List.length_take]
      simp only [List.sum_cons] at hsum
      omega
    | succ j =>
      simp only [takeChunks, List.getD_cons_succ]
      apply ih (xs.drop s)
      · simp only [List.sum_cons] at hsum
        simp only [List.length_drop]
        omega
      · simpa using hi

/-- Chunk members come from the original list. -/
theorem takeChunks_getD_subset {α : Type} :
    ∀ (ss : List Nat) (xs : List α) (i : Nat) (y : α),
      y ∈ (takeChunks xs ss).getD i [] → y ∈ xs := by
  intro ss
  induction ss with
  | nil =>
    intro xs i y hy
    simp [takeChunks] at hy
  | cons s ss ih =>
    intro xs i y hy
    cases i with
    | zero =>
      simp only [takeChunks, List.getD_cons_zero] at hy
      exact List.take_subset s xs hy
    | succ j =>
      simp only [takeChunks, List.getD_cons_succ] at hy
      exact List.drop_subset s xs (ih (xs.drop s) j y hy)

/-- Unfolding conforms at a node. -/
theorem conforms_node_iff (es : List NT) (m : Nat) (sh : List Nat) :
    conforms (NT.node es) (m :: sh) = true ↔
      es.length = m ∧ ∀ e ∈ es, conforms e sh = true := by
  simp [conforms, List.all_eq_true]

/-- A leaf never conforms to a nonempty shape and a node never conforms to
the empty shape. -/
theorem conforms_shape_cases (t : NT) (sh : List Nat) (h : conforms t sh = true) :
    (sh = [] ∧ ∃ x, t = NT.leaf x) ∨
    (∃ m rest es, sh = m :: rest ∧ t = NT.node es) := by
  cases t with
  | leaf x =>
    cases sh with
    | nil => exact Or.inl ⟨rfl, x, rfl⟩
    | cons m rest => simp [conforms] at h
  | node es =>
    cases sh with
    | nil => simp [conforms] at h
    | cons m rest => exact Or.inr ⟨m, rest, es, rfl, rfl⟩

/-- splitList produces n chunks. -/
theorem splitList_length {α : Type} (xs : List α) (n : Nat) :
    (splitList xs n).length = n := by
  rw [splitList, takeChunks_length, splitSizes_length]

/-- Chunk i of splitList has the tensor_split section size. -/
theorem splitList_getD_length {α : Type} (xs : List α) (n i : Nat)
    (hn : 0 < n) (hi : i < n) :
    ((splitList xs n).getD i []).length =
      xs.length / n + if i < xs.length % n then 1 else 0 := by
  rw [splitList,
    takeChunks_getD_length (splitSizes xs.length n) xs
      (le_of_eq (splitSizes_sum xs.length n hn)) i
      (by rw [splitSizes_length]; exact hi),
    splitSizes_getD xs.length n i hi]

/-- Chunk members of splitList come from the original list. -/
theorem splitList_getD_subset {α : Type} (xs : List α) (n i : Nat) (y : α)
    (hy : y ∈ (splitList xs n).getD i []) : y ∈ xs :=
  takeChunks_getD_subset (splitSizes xs.length n) xs i y hy

/-- torch.tensor_split sections of a conforming tensor: there are n of
them, and section i conforms to the input shape with the split dimension
resized to its section size. -/
theorem conforms_splitAtDim :
    ∀ (d : Nat) (t : NT) (sh : List Nat) (n : Nat), 0 < n →
      conforms t sh = true → d < sh.length →
      (splitAtDim t d n).length = n ∧
      ∀ i, i < n →
        conforms ((splitAtDim t d n).getD i (NT.node []))
          (sh.set d (sh.getD d 0 / n + if i < sh.getD d 0 % n then 1 else 0)) =
          true := by
  intro d
  induction d with
  | zero =>
    intro t sh n hn hconf hd
    rcases conforms_shape_cases t sh hconf with ⟨rfl, x, rfl⟩ | ⟨m, sh2, es, rfl, rfl⟩
    · cases hd
    · obtain ⟨hlen, hmem⟩ := (conforms_node_iff es m sh2).mp hconf
      have hsplitlen : (splitAtDim (NT.node es) 0 n).length = n := by
        simp [splitAtDim, splitList_length]
      refine ⟨hsplitlen, ?_⟩
      intro i hi
      have hget : (splitAtDim (NT.node es) 0 n).getD i (NT.node []) =
          NT.node ((splitList es n).getD i []) := by
        rw [List.getD_eq_getElem _ _ (by rw [hsplitlen]; exact hi)]
        simp only [splitAtDim, List.getElem_map]
        rw [List.getD_eq_getElem _ _ (by rw [splitList_length]; exact hi)]
      rw [hget]
      simp only [List.set_cons_zero, List.getD_cons_zero]
      rw [conforms_node_iff]
      constructor
      · rw [splitList_getD_length es n i hn hi, hlen]
      · intro e he
        exact hmem e (splitList_getD_subset es n i e he)
  | succ d ih =>
    intro t sh n hn hconf hd
    rcases conforms_shape_cases t sh hconf with ⟨rfl, x, rfl⟩ | ⟨m, sh2, es, rfl, rfl⟩
    · cases hd
    · obtain ⟨hlen, hmem⟩ := (conforms_node_iff es m sh2).mp hconf
      have hd2 : d < sh2.length := by
        simpa using hd
      have hsplitlen : (splitAtDim (NT.node es) (d + 1) n).length = n := by
        simp [splitAtDim]
      refine ⟨hsplitlen, ?_⟩
      intro i hi
      have hget : (splitAtDim (NT.node es) (d + 1) n).getD i (NT.node []) =
          NT.node (es.map (fun e => (splitAtDim e d n).getD i (NT.node []))) := by
        rw [List.getD_eq_getElem _ _ (by rw [hsplitlen]; exact hi)]
        simp [splitAtDim]
      rw [hget]
      simp only [List.set_cons_succ, List.getD_cons_succ]
      rw [conforms_node_iff]
      constructor
      · rw [List.length_map, hlen]
      · intro x hx
        rcases List.mem_map.mp hx with ⟨e, he, rfl⟩
        exact (ih e sh2 n hn (hmem e he) hd2).2 i hi

/-- On a conforming tensor with all dimensions positive, shapeOf reads the
shape back. -/
theorem shapeOf_of_conforms :
    ∀ (sh : List Nat) (t : NT), conforms t sh = true →
      (∀ x ∈ sh, 0 < x) → shapeOf t = sh := by
  intro sh
  induction sh with
  | nil =>
    intro t hconf _
    rcases conforms_shape_cases t [] hconf with ⟨_, x, rfl⟩ | ⟨m, sh2, es, h, _⟩
    · rfl
    · cases h
  | cons m sh2 ih =>
    intro t hconf hpos
    rcases conforms_shape_cases t (m :: sh2) hconf with ⟨h, _, _⟩ | ⟨m2, sh3, es, heq, rfl⟩
    · cases h
    · injection heq with h1 h2
      subst h1
      subst h2
      obtain ⟨hlen, hmem⟩ := (conforms_node_iff es m sh2).mp hconf
      cases es with
      | nil =>
        exfalso
        have := hpos m (List.mem_cons_self m sh2)
        simp at hlen
        omega
      | cons e es2 =>
        simp only [shapeOf]
        have h1 : es2.length + 1 = m := by
          simpa using hlen
        rw [h1, ih e (hmem e (List.mem_cons_self e es2))
          (fun x hx => hpos x (List.mem_cons_of_mem m hx))]

/-- A tensor conforming to one shape cannot read back a different
all-positive shape of the same length. -/
theorem shapeOf_ne_of_conforms :
    ∀ (shB shA : List Nat) (b : NT), conforms b shB = true →
      (∀ x ∈ shA, 0 < x) → shA ≠ shB → shA.length = shB.length →
      shapeOf b ≠ shA := by
  intro shB
  induction shB with
  | nil =>
    intro shA b _ _ hne hlen
    cases shA with
    | nil => exact absurd rfl hne
    | cons p shA2 => cases hlen
  | cons q shB2 ih =>
    intro shA b hconf hpos hne hlen
    rcases conforms_shape_cases b (q :: shB2) hconf with ⟨h, _, _⟩ | ⟨q2, sh3, fs, heq, rfl⟩
    · cases h
    · injection heq with h1 h2
      subst h1
      subst h2
      obtain ⟨hlenfs, hmemfs⟩ := (conforms_node_iff fs q shB2).mp hconf
      cases shA with
      | nil => cases hlen
      | cons p shA2 =>
        cases fs with
        | nil =>
          intro hcontra
          simp only [shapeOf] at hcontra
          have hp : p = 0 ∧ shA2 = [] := by
            constructor <;> injection hcontra.symm <;> simp_all
          exact absurd (hp.1 ▸ hpos p (List.mem_cons_self p shA2)) (by omega)
        | cons f fs2 =>
          intro hcontra
          simp only [shapeOf] at hcontra
          obtain ⟨hq2, hsh2⟩ : fs2.length + 1 = p ∧ shapeOf f = shA2 := by
            constructor <;> injection hcontra <;> assumption
          have hplen : fs2.length + 1 = q := by
            simpa using hlenfs
          have hpq : p = q := by omega
          have hne2 : shA2 ≠ shB2 := by
            intro h
            exact hne (by rw [hpq, h])
          exact ih shA2 f (hmemfs f (List.mem_cons_self f fs2))
            (fun x hx => hpos x (List.mem_cons_of_mem p hx)) hne2
            (by simpa using hlen) hsh2

/-- headD of a nonempty list is its entry at 0. -/
theorem headD_eq_getD_zero {α : Type} (l : List α) (d : α) (h : l ≠ []) :
    l.headD d = l.getD 0 d := by
  cases l with
  | nil => exact absurd rfl h
  | cons x xs => rfl

/-- Setting a positive size keeps every dimension positive. -/
theorem pos_of_set (sh : List Nat) (d a : Nat) (hpos : ∀ x ∈ sh, 0 < x)
    (ha : 0 < a) : ∀ x ∈ sh.set d a, 0 < x := by
  intro x hx
  rcases List.mem_or_eq_of_mem_set hx with h | rfl
  · exact hpos x h
  · exact ha

/-- Reading back the dimension just set. -/
theorem getD_set_self (sh : List Nat) (d a : Nat) (hd : d < sh.length) :
    (sh.set d a).getD d 0 = a := by
  rw [List.getD_eq_getElem _ _ (by simpa using hd)]
  exact List.getElem_set_self _

/-- Shapes set to different sizes at the same dimension differ. -/
theorem set_ne_of_ne (sh : List Nat) (d a b : Nat) (hd : d < sh.length)
    (hab : a ≠ b) : sh.set d a ≠ sh.set d b := by
  intro h
  apply hab
  have h2 : (sh.set d a).getD d 0 = (sh.set d b).getD d 0 := by rw [h]
  rwa [getD_set_self sh d a hd, getD_set_self sh d b hd] at h2

/-- An in-range getD is a member. -/
theorem getD_mem (sh : List Nat) (d : Nat) (hd : d < sh.length) :
    sh.getD d 0 ∈ sh := by
  rw [List.getD_eq_getElem _ _ hd]
  exact List.getElem_mem hd

/-- The all-to-all of one tensor succeeds on an axis-divisible uniform
shape: every section matches the preallocated buffers, and the result
concatenates the sections received from the ranks in order. -/
theorem all_to_all_tensor_ok (allTensors : Nat → NT) (rank W scatter gather : Nat)
    (sh : List Nat) (hW : 2 ≤ W) (hrank : rank < W)
    (hpos : ∀ x ∈ sh, 0 < x) (hscatter : scatter < sh.length)
    (hconf : ∀ i, i < W → conforms (allTensors i) sh = true)
    (hdvd : sh.getD scatter 0 % W = 0) :
    all_to_all_tensor allTensors rank W scatter gather =
      Except.ok (catAtDim ((List.range W).map fun i =>
        (splitAtDim (allTensors i) scatter W).getD rank (NT.node [])) gather) := by
  have hW0 : 0 < W := by omega
  have hsize : ∀ j, j < W →
      sh.getD scatter 0 / W + (if j < sh.getD scatter 0 % W then 1 else 0) =
        sh.getD scatter 0 / W := by
    intro j hj
    rw [hdvd]
    simp
  have hchunk : ∀ i, i < W → ∀ j, j < W →
      conforms ((splitAtDim (allTensors i) scatter W).getD j (NT.node []))
        (sh.set scatter (sh.getD scatter 0 / W)) = true := by
    intro i hi j hj
    have h := (conforms_splitAtDim scatter (allTensors i) sh W hW0
      (hconf i hi) hscatter).2 j hj
    rwa [hsize j hj] at h
  have hlpos : 0 < sh.getD scatter 0 := hpos _ (getD_mem sh scatter hscatter)
  have hlW : W ≤ sh.getD scatter 0 :=
    Nat.le_of_dvd hlpos (Nat.dvd_of_mod_eq_zero hdvd)
  have hqpos : 0 < sh.getD scatter 0 / W := Nat.div_pos hlW hW0
  have hposset : ∀ x ∈ sh.set scatter (sh.getD scatter 0 / W), 0 < x :=
    pos_of_set sh scatter _ hpos hqpos
  have hshape : ∀ i, i < W → ∀ j, j < W →
      shapeOf ((splitAtDim (allTensors i) scatter W).getD j (NT.node [])) =
        sh.set scatter (sh.getD scatter 0 / W) := by
    intro i hi j hj
    exact shapeOf_of_conforms _ _ (hchunk i hi j hj) hposset
  have hlen0 : (splitAtDim (allTensors rank) scatter W).length = W :=
    (conforms_splitAtDim scatter (allTensors rank) sh W hW0
      (hconf rank hrank) hscatter).1
  have hne : splitAtDim (allTensors rank) scatter W ≠ [] := by
    intro h
    rw [h] at hlen0
    simp at hlen0
    omega
  simp only [all_to_all_tensor]
  split_ifs with hc
  · rfl
  · exfalso
    apply hc
    rw [List.all_eq_true]
    intro c hcmem
    rcases List.mem_map.mp hcmem with ⟨i, hi, rfl⟩
    have hiW : i < W := List.mem_range.mp hi
    rw [headD_eq_getD_zero _ _ hne, hshape i hiW rank hrank,
      hshape rank hrank 0 (by omega)]
    exact beq_self_eq_true _

/-- The all-to-all of one tensor fails on a non-divisible uniform shape for
every rank at or past the remainder: the received sections are one shorter
than the preallocated buffers. -/
theorem all_to_all_tensor_err (allTensors : Nat → NT) (rank W scatter gather : Nat)
    (sh : List Nat) (hW : 2 ≤ W) (hrank : rank < W)
    (hrank2 : sh.getD scatter 0 % W ≤ rank)
    (hpos : ∀ x ∈ sh, 0 < x) (hscatter : scatter < sh.length)
    (hconf : ∀ i, i < W → conforms (allTensors i) sh = true)
    (hndvd : sh.getD scatter 0 % W ≠ 0) :
    all_to_all_tensor allTensors rank W scatter gather =
      Except.error CommError.shapeMismatch := by
  have hW0 : 0 < W := by omega
  have hmodpos : 0 < sh.getD scatter 0 % W := Nat.pos_of_ne_zero hndvd
  have hchunk0 : conforms ((splitAtDim (allTensors rank) scatter W).getD 0 (NT.node []))
      (sh.set scatter (sh.getD scatter 0 / W + 1)) = true := by
    have h := (conforms_splitAtDim scatter (allTensors rank) sh W hW0
      (hconf rank hrank) hscatter).2 0 hW0
    rwa [if_pos hmodpos] at h
  have hchunkr : conforms ((splitAtDim (allTensors 0) scatter W).getD rank (NT.node []))
      (sh.set scatter (sh.getD scatter 0 / W)) = true := by
    have h := (conforms_splitAtDim scatter (allTensors 0) sh W hW0
      (hconf 0 hW0) hscatter).2 rank hrank
    rwa [if_neg (by omega : ¬ rank < sh.getD scatter 0 % W), Nat.add_zero] at h
  have hposset : ∀ x ∈ sh.set scatter (sh.getD scatter 0 / W + 1), 0 < x :=
    pos_of_set sh scatter _ hpos (Nat.succ_pos _)
  have hbufshape : shapeOf ((splitAtDim (allTensors rank) scatter W).getD 0 (NT.node [])) =
      sh.set scatter (sh.getD scatter 0 / W + 1) :=
    shapeOf_of_conforms _ _ hchunk0 hposset
  have hshne : shapeOf ((splitAtDim (allTensors 0) scatter W).getD rank (NT.node [])) ≠
      sh.set scatter (sh.getD scatter 0 / W + 1) :=
    shapeOf_ne_of_conforms _ _ _ hchunkr hposset
      (set_ne_of_ne sh scatter _ _ hscatter (by omega))
      (by simp)
  have hlen0 : (splitAtDim (allTensors rank) scatter W).length = W :=
    (conforms_splitAtDim scatter (allTensors rank) sh W hW0
      (hconf rank hrank) hscatter).1
  have hne : splitAtDim (allTensors rank) scatter W ≠ [] := by
    intro h
    rw [h] at hlen0
    simp at hlen0
    omega
  simp only [all_to_all_tensor]
  split_ifs with hc
  · exfalso
    rw [List.all_eq_true] at hc
    have hmem : (splitAtDim (allTensors 0) scatter W).getD rank (NT.node []) ∈
        (List.range W).map (fun i =>
          (splitAtDim (allTensors i) scatter W).getD rank (NT.node [])) :=
      List.mem_map.mpr ⟨0, List.mem_range.mpr hW0, rfl⟩
    have h := hc _ hmem
    rw [headD_eq_getD_zero _ _ hne, hbufshape] at h
    exact hshne (beq_iff_eq.mp h)
  · rfl

/-- all_to_all_tensor either succeeds or reports the shape mismatch. -/
theorem all_to_all_tensor_cases (allTensors : Nat → NT) (rank W scatter gather : Nat) :
    (∃ t, all_to_all_tensor allTensors rank W scatter gather = Except.ok t) ∨
    all_to_all_tensor allTensors rank W scatter gather =
      Except.error CommError.shapeMismatch := by
  simp only [all_to_all_tensor]
  split_ifs
  · exact Or.inl ⟨_, rfl⟩
  · exact Or.inr rfl

/-- mapM over Except collects pointwise successes. -/
theorem mapM_ok_of_forall {α β ε : Type} (l : List α) (f : α → Except ε β)
    (g : α → β) (h : ∀ a ∈ l, f a = Except.ok (g a)) :
    l.mapM f = Except.ok (l.map g) := by
  induction l with
  | nil => rfl
  | cons x xs ih =>
    rw [List.mapM_cons, h x (List.mem_cons_self x xs),
      ih (fun a ha => h a (List.mem_cons_of_mem x ha))]
    rfl

/-- mapM over Except with a single possible error value either succeeds or
returns that error. -/
theorem mapM_cases {α β ε : Type} (l : List α) (f : α → Except ε β) (e₀ : ε)
    (hall : ∀ a ∈ l, (∃ b, f a = Except.ok b) ∨ f a = Except.error e₀) :
    (∃ bs, l.mapM f = Except.ok bs) ∨ l.mapM f = Except.error e₀ := by
  induction l with
  | nil => exact Or.inl ⟨[], rfl⟩
  | cons x xs ih =>
    rcases hall x (List.mem_cons_self x xs) with ⟨b, hb⟩ | hb
    · rcases ih (fun a ha => hall a (List.mem_cons_of_mem x ha)) with ⟨bs, hbs⟩ | hbs
      · exact Or.inl ⟨b :: bs, by rw [List.mapM_cons, hb, hbs]; rfl⟩
      · exact Or.inr (by rw [List.mapM_cons, hb, hbs]; rfl)
    · exact Or.inr (by rw [List.mapM_cons, hb]; rfl)

/-- mapM over Except fails when some element fails (and the only possible
error is the shared one). -/
theorem mapM_err {α β ε : Type} (l : List α) (f : α → Except ε β) (e₀ : ε)
    (hall : ∀ a ∈ l, (∃ b, f a = Except.ok b) ∨ f a = Except.error e₀)
    (hex : ∃ a, a ∈ l ∧ f a = Except.error e₀) :
    l.mapM f = Except.error e₀ := by
  induction l with
  | nil =>
    rcases hex with ⟨a, ha, _⟩
    cases ha
  | cons x xs ih =>
    rcases hall x (List.mem_cons_self x xs) with ⟨b, hb⟩ | hb
    · rcases hex with ⟨a, ha, hfa⟩
      rcases List.mem_cons.mp ha with rfl | ha2
      · rw [hb] at hfa
        exact Except.noConfusion hfa
      · rw [List.mapM_cons, hb,
          ih (fun a2 ha3 => hall a2 (List.mem_cons_of_mem x ha3)) ⟨a, ha2, hfa⟩]
        rfl
    · rw [List.mapM_cons, hb]
      rfl

/-- Unfolding batched_all_to_all past the group lookup on a group of size
at least 2. -/
theorem batched_all_to_all_unfold (env : CommEnv) (allInputs : Nat → List NT)
    (r scatter gather g W : Nat) (hg : env.groupSize g = some W) (hW : 2 ≤ W) :
    batched_all_to_all env allInputs r scatter gather (some g) =
      (List.range (allInputs r).length).mapM (fun k =>
        all_to_all_tensor (fun i => (allInputs i).getD k (NT.node [])) r W
          scatter gather) := by
  simp only [batched_all_to_all, resolveGroup, get_world_size, hg,
    Option.isNone_some, Bool.false_eq_true, if_false, Bind.bind, Except.bind]
  rw [if_neg (by omega : ¬ W = 1)]
  rfl

/-- Claim C2: with a process group of size W at least 2 and one same-shaped
batch of tensors per rank (all dimensions positive, scatter axis in range),
the whole-system batched_all_to_all fails with the shape-mismatch error
whenever some tensor's scatter-axis length is not divisible by W, and on
axis-divisible batches it succeeds, every rank receiving, for each tensor,
the concatenation along the gather axis of the W sections received from the
ranks in order; moreover the sections are W equal contiguous chunks (each
conforming to the shape with the scatter axis resized to length / W). -/
theorem c2_batched_all_to_all (env : CommEnv) (g W : Nat)
    (hg : env.groupSize g = some W) (hW : 2 ≤ W)
    (allInputs : Nat → List NT) (L : Nat) (shs : Nat → List Nat)
    (scatter gather : Nat)
    (hlen : ∀ r, r < W → (allInputs r).length = L)
    (hconf : ∀ r, r < W → ∀ k, k < L →
       conforms ((allInputs r).getD k (NT.node [])) (shs k) = true)
    (hpos : ∀ k, k < L → ∀ x ∈ shs k, 0 < x)
    (hscatter : ∀ k, k < L → scatter < (shs k).length) :
    ((∃ k, k < L ∧ (shs k).getD scatter 0 % W ≠ 0) →
       batched_all_to_all_global env allInputs W scatter gather (some g) =
         Except.error CommError.shapeMismatch) ∧
    ((∀ k, k < L → (shs k).getD scatter 0 % W = 0) →
       batched_all_to_all_global env allInputs W scatter gather (some g) =
         Except.ok ((List.range W).map fun r => (List.range L).map fun k =>
           catAtDim ((List.range W).map fun i =>
             (splitAtDim ((allInputs i).getD k (NT.node [])) scatter W).getD r
               (NT.node [])) gather)) ∧
    (∀ r, r < W → ∀ k, k < L → ∀ i, i < W →
       (shs k).getD scatter 0 % W = 0 →
       conforms ((splitAtDim ((allInputs r).getD k (NT.node [])) scatter W).getD i
           (NT.node []))
         ((shs k).set scatter ((shs k).getD scatter 0 / W)) = true) := by
  have hW0 : 0 < W := by omega
  have hrank_cases : ∀ r, r < W →
      (∃ bs, batched_all_to_all env allInputs r scatter gather (some g) =
         Except.ok bs) ∨
      batched_all_to_all env allInputs r scatter gather (some g) =
        Except.error CommError.shapeMismatch := by
    intro r _
    rw [batched_all_to_all_unfold env allInputs r scatter gather g W hg hW]
    exact mapM_cases _ _ _ (fun k _ => all_to_all_tensor_cases _ _ _ _ _)
  refine ⟨?_, ?_, ?_⟩
  · rintro ⟨k0, hk0, hnd⟩
    have hlast : W - 1 < W := by omega
    have herr : batched_all_to_all env allInputs (W - 1) scatter gather (some g) =
        Except.error CommError.shapeMismatch := by
      rw [batched_all_to_all_unfold env allInputs (W - 1) scatter gather g W hg hW,
        hlen (W - 1) hlast]
      refine mapM_err _ _ _ (fun k _ => all_to_all_tensor_cases _ _ _ _ _)
        ⟨k0, List.mem_range.mpr hk0, ?_⟩
      refine all_to_all_tensor_err _ (W - 1) W scatter gather (shs k0) hW hlast
        ?_ (hpos k0 hk0) (hscatter k0 hk0) (fun i hi => hconf i hi k0 hk0) hnd
      have := Nat.mod_lt ((shs k0).getD scatter 0) hW0
      omega
    simp only [batched_all_to_all_global]
    exact mapM_err _ _ _
      (fun r hr => hrank_cases r (List.mem_range.mp hr))
      ⟨W - 1, List.mem_range.mpr hlast, herr⟩
  · intro hdvd
    simp only [batched_all_to_all_global]
    apply mapM_ok_of_forall
    intro r hr
    have hrW : r < W := List.mem_range.mp hr
    rw [batched_all_to_all_unfold env allInputs r scatter gather g W hg hW,
      hlen r hrW]
    apply mapM_ok_of_forall
    intro k hk
    have hkL : k < L := List.mem_range.mp hk
    exact all_to_all_tensor_ok _ r W scatter gather (shs k) hW hrW
      (hpos k hkL) (hscatter k hkL) (fun i hi => hconf i hi k hkL) (hdvd k hkL)
  · intro r hr k hk i hi hdvd
    have h := (conforms_splitAtDim scatter ((allInputs r).getD k (NT.node []))
      (shs k) W hW0 (hconf r hr k hk) (hscatter k hk)).2 i hi
    rwa [hdvd, if_neg (by omega : ¬ i < 0), Nat.add_zero] at h

/-- A two-rank environment where group handle 7 has size 2. -/
def c2Env : CommEnv := ⟨none, fun h => if h = 7 then some 2 else none, none⟩

/-- Each rank holds one tensor of shape [2]. -/
def c2Inputs : Nat → List NT := fun _ => [NT.node [NT.leaf 1, NT.leaf 2]]

/-- The common shape of the C2 witness batch. -/
def c2Shapes : Nat → List Nat := fun _ => [2]

/-- Claim C2 witness: two ranks exchanging one shape-[2] tensor along axis
0, which is divisible, so the collective succeeds with the concatenated
received sections. -/
theorem c2_batched_all_to_all_witness :
    c2Env.groupSize 7 = some 2 ∧
    (∀ k, k < 1 → (c2Shapes k).getD 0 0 % 2 = 0) ∧
    batched_all_to_all_global c2Env c2Inputs 2 0 0 (some 7) =
      Except.ok ((List.range 2).map fun r => (List.range 1).map fun k =>
        catAtDim ((List.range 2).map fun i =>
          (splitAtDim ((c2Inputs i).getD k (NT.node [])) 0 2).getD r
            (NT.node [])) 0) := by
  refine ⟨rfl, by decide, ?_⟩
  exact (c2_batched_all_to_all c2Env 7 2 rfl (by decide) c2Inputs 1 c2Shapes 0 0
    (by decide) (by decide) (by decide) (by decide)).2.1 (by decide)

/-- An environment with no sequence-parallel group and torch.distributed
never initialised: the single-device situation the spec describes. -/
def envNoGroups : CommEnv := ⟨none, fun _ => none, none⟩

/-- Claim C3 counterexample: running single-device with no resolvable group,
every collective raises at the group lookup instead of returning its input,
because the world-size query precedes the W == 1 check — so a valid group
is required even when running single-device, contradicting the claim. -/
theorem c3_counterexample :
    batched_all_to_all envNoGroups (fun _ => [NT.leaf 0]) 0 2 1 none =
      Except.error CommError.noDefaultGroup ∧
    batched_all_to_all envNoGroups (fun _ => [NT.leaf 0]) 0 2 1 none ≠
      Except.ok [NT.leaf 0] ∧
    efficient_broadcast envNoGroups (fun _ => NT.leaf 0) 0 0 none =
      Except.error CommError.noDefaultGroup ∧
    overlapped_all_gather envNoGroups (fun _ => NT.leaf 0) 0 1 none =
      Except.error CommError.noDefaultGroup ∧
    optimized_all_to_all envNoGroups (fun _ => NT.leaf 0) 0 2 1 none =
      Except.error CommError.noDefaultGroup := by
  refine ⟨rfl, ?_, rfl, rfl, rfl⟩
  intro h
  rw [show batched_all_to_all envNoGroups (fun _ => [NT.leaf 0]) 0 2 1 none =
      Except.error CommError.noDefaultGroup from rfl] at h
  exact Except.noConfusion h

/-- Claim C3 (amended): once the group resolves and reports world size 1,
batched_all_to_all, overlapped_all_gather and optimized_all_to_all return
their input unchanged without touching the exchange, and efficient_broadcast
— which has no world-size short-circuit and always issues the broadcast —
leaves the data unchanged (every rank receives the sole rank's tensor); the
group lookup itself happens before the world-size check, so a resolvable
group is required even single-device (see the counterexample). -/
theorem c3_world_size_one_identity (env : CommEnv) (g : Nat)
    (hg : env.groupSize g = some 1) (allBatches : Nat → List NT)
    (allTensors : Nat → NT) (rank scatter gather dim : Nat) :
    batched_all_to_all env allBatches rank scatter gather (some g) =
      Except.ok (allBatches rank) ∧
    overlapped_all_gather env allTensors rank dim (some g) =
      Except.ok (allTensors rank) ∧
    optimized_all_to_all env allTensors rank scatter gather (some g) =
      Except.ok (allTensors rank) ∧
    efficient_broadcast env allTensors rank 0 (some g) =
      Except.ok (allTensors 0) := by
  refine ⟨?_, ?_, ?_, ?_⟩ <;>
    simp [batched_all_to_all, overlapped_all_gather, optimized_all_to_all,
      efficient_broadcast, resolveGroup, get_world_size, hg, Bind.bind,
      Except.bind, Pure.pure, Except.pure]

/-- A single-rank environment where group handle 3 has size 1. -/
def c3Env : CommEnv := ⟨none, fun h => if h = 3 then some 1 else none, none⟩

/-- Claim C3 witness: the amended identity applied in a concrete
one-rank environment. -/
theorem c3_world_size_one_identity_witness :
    c3Env.groupSize 3 = some 1 ∧
    batched_all_to_all c3Env (fun _ => [NT.leaf 5]) 0 2 1 (some 3) =
      Except.ok [NT.leaf 5] ∧
    efficient_broadcast c3Env (fun _ => NT.leaf 5) 0 0 (some 3) =
      Except.ok (NT.leaf 5) := by
  refine ⟨rfl, ?_, ?_⟩
  · exact (c3_world_size_one_identity c3Env 3 rfl (fun _ => [NT.leaf 5])
      (fun _ => NT.leaf 5) 0 2 1 1).1
  · exact (c3_world_size_one_identity c3Env 3 rfl (fun _ => [NT.leaf 5])
      (fun _ => NT.leaf 5) 0 2 1 1).2.2.2
